import Mathlib

/-!
Verification development for the hex-pathgame repository ("vertex isolation"):
a shallow embedding in Lean 4 of the rules engine
(`shared/utils/gameLogic.ts` over `shared/utils/triangularLattice.ts`)
and of the MCTS search core
(`client/src/ai/bots/mcts/MCTSNode.ts`, `MCTSEngine.ts`, `MCTSBot.ts`),
together with theorems settling the specification claims.

Modelling conventions:
* JavaScript numbers holding lattice coordinates and radii are `Int`;
  visit counters are `Nat`; win statistics and simulation results
  (which hold fractional values such as 0.5) are `Rat`;
  the UCB1 score (which uses `Math.sqrt`/`Math.log` and can be `Infinity`)
  is `EReal`.
* `Map<string, Edge>` keyed by the canonical edge-key string is modelled as an
  insertion-ordered association list keyed by the canonically ordered pair of
  coordinates.  The source's key string `"u,v-u,v"` is injective on
  coordinate pairs and is ordered by a fixed total order (string comparison of
  the two coordinate keys); the model replaces that total order by the
  lexicographic order `keyLt` on `(u, v)`, which preserves exactly the
  properties the code relies on: the key of `(a, b)` and `(b, a)` coincide and
  distinct unordered pairs get distinct keys.
* `Set<string>` of vertex keys is modelled as the `List` of the vertices
  (coordinate keys are injective).
* Mutation-free TypeScript code becomes pure functions; methods that `throw`
  become `Except String` results.  The cloning helpers of
  `gameStateCloning.ts` (`simulationClone`, `lightweightClone`) copy every
  component a subsequent `applyMove` could touch (and `applyMove` itself
  rebuilds the edge map), so in the pure model a clone is the state itself.
* `Math.random()` is modelled as a stream `rand : Nat -> Rat` consumed with an
  explicit counter; `Math.floor(Math.random() * len)` becomes `randIdx`.
  The extra `% len` in `randIdx` is the identity whenever `rand k` lies in
  `[0, 1)` as `Math.random` guarantees, and merely totalizes the function
  elsewhere.
* The wall-clock deadline of the search loop is modelled by a fuel parameter
  `timeFuel`: the loop runs while `iteration < maxSimulations` and
  `iteration < timeFuel`, covering every possible timing behaviour.
-/

namespace HexPathGame

/-! ## Lattice geometry: `shared/utils/triangularLattice.ts` -/

/-- Coordinate on the triangular lattice (fields `u`, `v` in the source). -/
structure TriangularCoordinate where
  u : Int
  v : Int
deriving DecidableEq

/-- The six unit steps of `TriangularLattice.getNeighbors`. -/
def unitDirections : List TriangularCoordinate :=
  [⟨1, 0⟩, ⟨1, -1⟩, ⟨0, -1⟩, ⟨-1, 0⟩, ⟨-1, 1⟩, ⟨0, 1⟩]

/-- `TriangularLattice.getNeighbors`. -/
def getNeighbors (coord : TriangularCoordinate) : List TriangularCoordinate :=
  unitDirections.map (fun dir => ⟨coord.u + dir.u, coord.v + dir.v⟩)

/-- `TriangularLattice.isInRadius`: hexagonal boundary test using the implicit
third axis `w = -(u + v)`. -/
def isInRadius (coord : TriangularCoordinate) (radius : Int) : Bool :=
  decide (|coord.u| ≤ radius) && decide (|coord.v| ≤ radius) &&
    decide (|(-(coord.u + coord.v))| ≤ radius)

/-- `TriangularLattice.distance`: max of the absolute differences of the three
cube coordinates. -/
def distance (a b : TriangularCoordinate) : Int :=
  max (|a.u - b.u|) (max (|a.v - b.v|) (|(-(a.u + a.v)) - (-(b.u + b.v))|))

/-- Total order on coordinates modelling the string comparison of
`coordToKey` outputs used by `getEdgeKey` (lexicographic on `(u, v)`). -/
def keyLt (a b : TriangularCoordinate) : Bool :=
  decide (a.u < b.u) || (decide (a.u = b.u) && decide (a.v < b.v))

/-- Canonical edge key of `TriangularLattice.getEdgeKey`: the two endpoint
keys in ascending key order, so that `(a, b)` and `(b, a)` collide. -/
def getEdgeKey (a b : TriangularCoordinate) :
    TriangularCoordinate × TriangularCoordinate :=
  if keyLt a b then (a, b) else (b, a)

/-- List of integers `lo, lo+1, ..., hi`, modelling a `for` loop counter. -/
def intRange (lo hi : Int) : List Int :=
  (List.range (hi - lo + 1).toNat).map (fun k : Nat => lo + (k : Int))

/-- `TriangularLattice.generateVertices`: all coordinates with
`u, v ∈ [-radius, radius]` that pass `isInRadius`. -/
def generateVertices (radius : Int) : List TriangularCoordinate :=
  (intRange (-radius) radius).flatMap (fun u =>
    ((intRange (-radius) radius).filter
        (fun v => isInRadius ⟨u, v⟩ radius)).map
      (fun v => (⟨u, v⟩ : TriangularCoordinate)))

/-- `TriangularLattice.generateEdges`: for each vertex, an edge to each
in-radius neighbor, kept only in the canonical key order so each edge appears
once. -/
def generateEdges (radius : Int) :
    List (TriangularCoordinate × TriangularCoordinate) :=
  (generateVertices radius).flatMap (fun vertex =>
    ((getNeighbors vertex).filter (fun nb => isInRadius nb radius)).filterMap
      (fun neighbor =>
        if keyLt vertex neighbor then some (vertex, neighbor) else none))

/-! ## Shared game types: `shared/types/game.ts` -/

/-- Tag of the `Move` union: `'move' | 'cut'`. -/
inductive MoveType where
  | move
  | cut
deriving DecidableEq

/-- A move: `type`, acting `player` id, optional `from`/`to` coordinates and
optional `edgeCut` endpoints, plus a timestamp. -/
structure Move where
  type : MoveType
  player : String
  mfrom : Option TriangularCoordinate
  mto : Option TriangularCoordinate
  edgeCut : Option (TriangularCoordinate × TriangularCoordinate)
  timestamp : Int
deriving DecidableEq

/-- An edge of the network (`from`, `to`, `removed`). -/
structure Edge where
  efrom : TriangularCoordinate
  eto : TriangularCoordinate
  removed : Bool
deriving DecidableEq

/-- A player (`id`, `name`, `color`, current `position`). -/
structure Player where
  id : String
  name : String
  color : String
  position : TriangularCoordinate
deriving DecidableEq

/-- Association-list model of the insertion-ordered `Map<string, Edge>`. -/
abbrev EdgeMap :=
  List ((TriangularCoordinate × TriangularCoordinate) × Edge)

/-- Lookup in the edge map (`Map.get`). -/
def mapGet (m : EdgeMap) (k : TriangularCoordinate × TriangularCoordinate) :
    Option Edge :=
  (m.find? (fun kv => kv.1 = k)).map (fun kv => kv.2)

/-- Update in the edge map (`Map.set`): replace in place when the key is
present, append otherwise. -/
def mapSet (m : EdgeMap) (k : TriangularCoordinate × TriangularCoordinate)
    (v : Edge) : EdgeMap :=
  if (m.find? (fun kv => kv.1 = k)).isSome then
    m.map (fun kv => if kv.1 = k then (k, v) else kv)
  else
    m ++ [(k, v)]

/-- The `network` component of a game state. -/
structure Network where
  radius : Int
  vertices : List TriangularCoordinate
  edges : EdgeMap
deriving DecidableEq

/-- Game phase: `'playing' | 'finished'`. -/
inductive Phase where
  | playing
  | finished
deriving DecidableEq

/-- Complete game state. -/
structure GameState where
  id : String
  players : Player × Player
  currentPlayerIndex : Fin 2
  network : Network
  phase : Phase
  winner : Option String
  moveHistory : List Move
deriving DecidableEq

/-- Indexing `players[i]` for `i : Fin 2`. -/
def playersGet (ps : Player × Player) (i : Fin 2) : Player :=
  if i = 0 then ps.1 else ps.2

/-- Writing `players[i] = p` for `i : Fin 2`. -/
def playersSet (ps : Player × Player) (i : Fin 2) (p : Player) :
    Player × Player :=
  if i = 0 then (p, ps.2) else (ps.1, p)

/-- The player array as a list, for the `for (const otherPlayer of ...)`
loops. -/
def playersList (ps : Player × Player) : List Player :=
  [ps.1, ps.2]

/-- Result of `getValidMoves`. -/
structure ValidMoves where
  moves : List TriangularCoordinate
  cuts : List (TriangularCoordinate × TriangularCoordinate)
deriving DecidableEq

/-- Reasons in the `GameEndReason` enum (only `PLAYER_ISOLATED` is produced
by the rules engine). -/
inductive GameEndReason where
  | player_isolated
  | player_disconnect
  | time_limit
  | forfeit
  | network_fragmented
deriving DecidableEq

/-- Result record of `checkGameEnd`. -/
structure GameEnd where
  winner : String
  reason : GameEndReason
deriving DecidableEq

/-- Player identity without a position (`Omit<Player, 'position'>`). -/
structure PlayerIdentity where
  id : String
  name : String
  color : String
deriving DecidableEq

/-- Game configuration (`gridRadius` and optional custom start positions;
the two coordinates are `player1` and `player2`). -/
structure GameConfig where
  gridRadius : Int
  customStartPositions :
    Option (TriangularCoordinate × TriangularCoordinate)
deriving DecidableEq

/-! ## Rules engine: `shared/utils/gameLogic.ts` (class `VertexGameLogic`) -/

/-- Edge map built by `createGame` from `generateEdges`: every generated edge
inserted with `removed := false` under its canonical key. -/
def buildEdgeMap (radius : Int) : EdgeMap :=
  (generateEdges radius).foldl
    (fun m ft =>
      mapSet m (getEdgeKey ft.1 ft.2) ⟨ft.1, ft.2, false⟩)
    []

/-- `VertexGameLogic.createGame`. -/
def createGame (gameId : String) (player1 player2 : PlayerIdentity)
    (config : GameConfig) : GameState :=
  let centerVertex : TriangularCoordinate := ⟨0, 0⟩
  let startPos1 :=
    match config.customStartPositions with
    | some ps => ps.1
    | none => centerVertex
  let startPos2 :=
    match config.customStartPositions with
    | some ps => ps.2
    | none => centerVertex
  { id := gameId
    players :=
      (⟨player1.id, player1.name, player1.color, startPos1⟩,
       ⟨player2.id, player2.name, player2.color, startPos2⟩)
    currentPlayerIndex := 0
    network :=
      { radius := config.gridRadius
        vertices := generateVertices config.gridRadius
        edges := buildEdgeMap config.gridRadius }
    phase := .playing
    winner := none
    moveHistory := [] }

/-- `VertexGameLogic.getValidMoves`. -/
def getValidMoves (gameState : GameState) (player : Player) : ValidMoves :=
  let validMoves :=
    (getNeighbors player.position).filter (fun neighbor =>
      isInRadius neighbor gameState.network.radius &&
      !((playersList gameState.players).any (fun otherPlayer =>
          decide (otherPlayer.id ≠ player.id) &&
          decide (otherPlayer.position = neighbor))) &&
      (match mapGet gameState.network.edges
          (getEdgeKey player.position neighbor) with
       | some edge => !edge.removed
       | none => false))
  let validCuts :=
    gameState.network.edges.filterMap (fun kv =>
      if kv.2.removed then none
      else if decide (distance player.position kv.2.efrom = 1) ||
          decide (distance player.position kv.2.eto = 1) then
        some (kv.2.efrom, kv.2.eto)
      else none)
  ⟨validMoves, validCuts⟩

/-- `VertexGameLogic.checkGameEnd`: if the current player has no moves and no
cuts they lose and the opponent wins by isolation. -/
def checkGameEnd (gameState : GameState) : Option GameEnd :=
  let currentPlayer := playersGet gameState.players gameState.currentPlayerIndex
  let validMoves := getValidMoves gameState currentPlayer
  if validMoves.moves.isEmpty && validMoves.cuts.isEmpty then
    some
      ⟨(playersGet gameState.players (1 - gameState.currentPlayerIndex)).id,
        .player_isolated⟩
  else
    none

/-- `VertexGameLogic.validateMoveAction`. -/
def validateMoveAction (gameState : GameState) (player : Player)
    (move : Move) : Bool :=
  match move.mto with
  | none => false
  | some mto =>
    isInRadius mto gameState.network.radius &&
    decide (distance player.position mto = 1) &&
    !((playersList gameState.players).any (fun otherPlayer =>
        decide (otherPlayer.id ≠ player.id) &&
        decide (otherPlayer.position = mto))) &&
    (match mapGet gameState.network.edges
        (getEdgeKey player.position mto) with
     | some edge => !edge.removed
     | none => false)

/-- `VertexGameLogic.validateCutAction`. -/
def validateCutAction (gameState : GameState) (player : Player)
    (move : Move) : Bool :=
  match move.edgeCut with
  | none => false
  | some ec =>
    isInRadius ec.1 gameState.network.radius &&
    isInRadius ec.2 gameState.network.radius &&
    (decide (distance player.position ec.1 = 1) ||
     decide (distance player.position ec.2 = 1)) &&
    decide (distance ec.1 ec.2 = 1) &&
    (match mapGet gameState.network.edges (getEdgeKey ec.1 ec.2) with
     | some edge => !edge.removed
     | none => false)

/-- `VertexGameLogic.isValidMove`. -/
def isValidMove (gameState : GameState) (move : Move) : Bool :=
  if gameState.phase ≠ .playing then
    false
  else
    let currentPlayer := playersGet gameState.players gameState.currentPlayerIndex
    if move.player ≠ currentPlayer.id then
      false
    else
      match move.type with
      | .move => validateMoveAction gameState currentPlayer move
      | .cut => validateCutAction gameState currentPlayer move

/-- Marking the edge under key `k` removed, mirroring the
`const edge = edges.get(k); if (edge) edges.set(k, {...edge, removed: true})`
pattern of `applyMove`. -/
def markEdgeRemoved (edges : EdgeMap)
    (k : TriangularCoordinate × TriangularCoordinate) : EdgeMap :=
  match mapGet edges k with
  | some edge => mapSet edges k { edge with removed := true }
  | none => edges

/-- `VertexGameLogic.applyMove`. -/
def applyMove (gameState : GameState) (move : Move) : GameState :=
  let newState : GameState :=
    { gameState with moveHistory := gameState.moveHistory ++ [move] }
  let currentPlayerIndex := newState.currentPlayerIndex
  let currentPlayer := playersGet newState.players currentPlayerIndex
  let newState :=
    match move.type, move.mto with
    | .move, some mto =>
      let ns :=
        { newState with
            players := playersSet newState.players currentPlayerIndex
              { currentPlayer with position := mto } }
      { ns with
          network :=
            { ns.network with
                edges := markEdgeRemoved ns.network.edges
                  (getEdgeKey currentPlayer.position mto) } }
    | _, _ => newState
  let newState :=
    match move.type, move.edgeCut with
    | .cut, some ec =>
      { newState with
          network :=
            { newState.network with
                edges := markEdgeRemoved newState.network.edges
                  (getEdgeKey ec.1 ec.2) } }
    | _, _ => newState
  let newState :=
    { newState with currentPlayerIndex := 1 - currentPlayerIndex }
  match checkGameEnd newState with
  | some gameEnd =>
    { newState with phase := .finished, winner := some gameEnd.winner }
  | none => newState

end HexPathGame

namespace HexPathGame

/-! ## Lemmas about the edge map and the shape of applyMove -/

lemma mapGet_replace_self (m : EdgeMap)
    (k : TriangularCoordinate × TriangularCoordinate) (v : Edge) :
    mapGet (m.map (fun kv => if kv.1 = k then (k, v) else kv)) k =
      if (m.find? (fun kv => kv.1 = k)).isSome then some v else none := by
  induction m with
  | nil => rfl
  | cons kv t ih =>
    by_cases hk : kv.1 = k
    · have h1 : (((k, v) : (TriangularCoordinate × TriangularCoordinate) × Edge) ::
          t.map (fun kv => if kv.1 = k then (k, v) else kv)).find?
            (fun kv => kv.1 = k) = some (k, v) :=
        List.find?_cons_of_pos _ (by simp)
      have h2 : (kv :: t).find? (fun kv => kv.1 = k) = some kv :=
        List.find?_cons_of_pos _ (by simp [hk])
      rw [List.map_cons, if_pos hk, mapGet, h1, h2]
      simp
    · have h1 : (kv :: t.map (fun kv => if kv.1 = k then (k, v) else kv)).find?
          (fun kv => kv.1 = k) =
          (t.map (fun kv => if kv.1 = k then (k, v) else kv)).find?
            (fun kv => kv.1 = k) :=
        List.find?_cons_of_neg _ (by simp [hk])
      have h2 : (kv :: t).find? (fun kv => kv.1 = k) =
          t.find? (fun kv => kv.1 = k) :=
        List.find?_cons_of_neg _ (by simp [hk])
      rw [List.map_cons, if_neg hk, mapGet, h1, h2]
      exact ih

lemma mapGet_replace_ne (m : EdgeMap)
    (k k' : TriangularCoordinate × TriangularCoordinate) (v : Edge)
    (hne : k' ≠ k) :
    mapGet (m.map (fun kv => if kv.1 = k then (k, v) else kv)) k' =
      mapGet m k' := by
  induction m with
  | nil => rfl
  | cons kv t ih =>
    by_cases hk : kv.1 = k
    · have h1 : (((k, v) : (TriangularCoordinate × TriangularCoordinate) × Edge) ::
          t.map (fun kv => if kv.1 = k then (k, v) else kv)).find?
            (fun kv => kv.1 = k') =
          (t.map (fun kv => if kv.1 = k then (k, v) else kv)).find?
            (fun kv => kv.1 = k') :=
        List.find?_cons_of_neg _ (by simp [Ne.symm hne])
      have h2 : (kv :: t).find? (fun kv => kv.1 = k') =
          t.find? (fun kv => kv.1 = k') := by
        refine List.find?_cons_of_neg _ ?_
        simp [hk]
        exact Ne.symm hne
      rw [List.map_cons, if_pos hk, mapGet, h1, mapGet, h2]
      exact ih
    · by_cases hk' : kv.1 = k'
      · have h1 : (kv :: t.map (fun kv => if kv.1 = k then (k, v) else kv)).find?
            (fun kv => kv.1 = k') = some kv :=
          List.find?_cons_of_pos _ (by simp [hk'])
        have h2 : (kv :: t).find? (fun kv => kv.1 = k') = some kv :=
          List.find?_cons_of_pos _ (by simp [hk'])
        rw [List.map_cons, if_neg hk, mapGet, h1, mapGet, h2]
      · have h1 : (kv :: t.map (fun kv => if kv.1 = k then (k, v) else kv)).find?
            (fun kv => kv.1 = k') =
            (t.map (fun kv => if kv.1 = k then (k, v) else kv)).find?
              (fun kv => kv.1 = k') :=
          List.find?_cons_of_neg _ (by simp [hk'])
        have h2 : (kv :: t).find? (fun kv => kv.1 = k') =
            t.find? (fun kv => kv.1 = k') :=
          List.find?_cons_of_neg _ (by simp [hk'])
        rw [List.map_cons, if_neg hk, mapGet, h1, mapGet, h2]
        exact ih

lemma mapGet_isSome_find {m : EdgeMap}
    {k : TriangularCoordinate × TriangularCoordinate} {e : Edge}
    (h : mapGet m k = some e) : (m.find? (fun kv => kv.1 = k)).isSome := by
  unfold mapGet at h
  cases hf : m.find? (fun kv => kv.1 = k) with
  | none => rw [hf] at h; simp at h
  | some kv => simp

lemma markEdgeRemoved_of_get {m : EdgeMap}
    {k : TriangularCoordinate × TriangularCoordinate} {e : Edge}
    (hg : mapGet m k = some e) :
    markEdgeRemoved m k =
      m.map (fun kv => if kv.1 = k then (k, { e with removed := true }) else kv) := by
  unfold markEdgeRemoved
  rw [hg]
  dsimp only
  unfold mapSet
  rw [if_pos (mapGet_isSome_find hg)]

lemma markEdgeRemoved_keys (m : EdgeMap)
    (k : TriangularCoordinate × TriangularCoordinate) :
    (markEdgeRemoved m k).map Prod.fst = m.map Prod.fst := by
  cases hg : mapGet m k with
  | none => unfold markEdgeRemoved; rw [hg]
  | some e =>
    rw [markEdgeRemoved_of_get hg, List.map_map]
    apply List.map_congr_left
    intro kv _
    by_cases hk : kv.1 = k
    · simp [hk]
    · simp [hk]

lemma markEdgeRemoved_get_self (m : EdgeMap)
    (k : TriangularCoordinate × TriangularCoordinate) {e : Edge}
    (hg : mapGet m k = some e) :
    mapGet (markEdgeRemoved m k) k = some { e with removed := true } := by
  rw [markEdgeRemoved_of_get hg, mapGet_replace_self,
    if_pos (mapGet_isSome_find hg)]

lemma markEdgeRemoved_get_ne (m : EdgeMap)
    (k k' : TriangularCoordinate × TriangularCoordinate) (hne : k' ≠ k) :
    mapGet (markEdgeRemoved m k) k' = mapGet m k' := by
  cases hg : mapGet m k with
  | none => unfold markEdgeRemoved; rw [hg]
  | some e => rw [markEdgeRemoved_of_get hg, mapGet_replace_ne m k k' _ hne]

/-- Evolution relation between an edge slot before and after one operation. -/
def edgeEvolves : Option Edge → Option Edge → Bool
  | none, none => true
  | some e, some e' =>
    decide (e'.efrom = e.efrom) && decide (e'.eto = e.eto) &&
      (!e.removed || e'.removed)
  | _, _ => false

lemma edgeEvolves_refl (x : Option Edge) : edgeEvolves x x = true := by
  cases x with
  | none => rfl
  | some e => simp [edgeEvolves]

lemma markEdgeRemoved_evolves (m : EdgeMap)
    (k k' : TriangularCoordinate × TriangularCoordinate) :
    edgeEvolves (mapGet m k') (mapGet (markEdgeRemoved m k) k') = true := by
  by_cases hk : k' = k
  · subst hk
    cases hg : mapGet m k' with
    | none => unfold markEdgeRemoved; rw [hg, hg]; rfl
    | some e =>
      rw [markEdgeRemoved_get_self m k' hg]
      simp [edgeEvolves]
  · rw [markEdgeRemoved_get_ne m k k' hk]
    exact edgeEvolves_refl _

/-- State assembled by `applyMove` just before its terminal re-check: position
updated and traversed edge removed for a `move`, target edge removed for a
`cut`, history appended and the turn index flipped. -/
def preEndState (s : GameState) (m : Move) : GameState :=
  { s with
      players :=
        match m.type, m.mto with
        | .move, some mto =>
          playersSet s.players s.currentPlayerIndex
            { playersGet s.players s.currentPlayerIndex with position := mto }
        | _, _ => s.players
      network :=
        { s.network with
            edges :=
              match m.type, m.mto, m.edgeCut with
              | .move, some mto, _ =>
                markEdgeRemoved s.network.edges
                  (getEdgeKey
                    (playersGet s.players s.currentPlayerIndex).position mto)
              | .cut, _, some ec =>
                markEdgeRemoved s.network.edges (getEdgeKey ec.1 ec.2)
              | _, _, _ => s.network.edges }
      currentPlayerIndex := 1 - s.currentPlayerIndex
      moveHistory := s.moveHistory ++ [m] }

/-- Characterization of `applyMove` via `preEndState`. -/
lemma applyMove_eq (s : GameState) (m : Move) :
    applyMove s m =
      match checkGameEnd (preEndState s m) with
      | some gameEnd =>
        { preEndState s m with
            phase := .finished, winner := some gameEnd.winner }
      | none => preEndState s m := by
  unfold applyMove preEndState
  cases ht : m.type <;> cases hmto : m.mto <;> cases hec : m.edgeCut <;> rfl

lemma applyMove_currentPlayerIndex (s : GameState) (m : Move) :
    (applyMove s m).currentPlayerIndex = 1 - s.currentPlayerIndex := by
  rw [applyMove_eq]
  cases hG : checkGameEnd (preEndState s m) <;> rfl

lemma applyMove_moveHistory (s : GameState) (m : Move) :
    (applyMove s m).moveHistory = s.moveHistory ++ [m] := by
  rw [applyMove_eq]
  cases hG : checkGameEnd (preEndState s m) <;> rfl

lemma applyMove_network (s : GameState) (m : Move) :
    (applyMove s m).network = (preEndState s m).network := by
  rw [applyMove_eq]
  cases hG : checkGameEnd (preEndState s m) <;> rfl

lemma applyMove_players (s : GameState) (m : Move) :
    (applyMove s m).players = (preEndState s m).players := by
  rw [applyMove_eq]
  cases hG : checkGameEnd (preEndState s m) <;> rfl


/-- Claim C6: `applyMove` always flips `currentPlayerIndex` to
`1 - currentPlayerIndex` and appends the applied move as the last element of
`moveHistory`.  The input state is a pure value in this embedding, which
models the shallow-copy-and-replace discipline of the source (`applyMove`
never mutates its argument). -/
theorem applyMove_flips_turn_and_appends_history (s : GameState) (m : Move) :
    (applyMove s m).currentPlayerIndex = 1 - s.currentPlayerIndex ∧
    (applyMove s m).moveHistory = s.moveHistory ++ [m] :=
  ⟨applyMove_currentPlayerIndex s m, applyMove_moveHistory s m⟩

/-- Claim C8: `applyMove` preserves the network shape — radius, vertex set
and the edge-key list are unchanged, and every edge slot keeps its endpoints
while `removed` only ever transitions from `false` to `true`; absent keys
stay absent, so no edge is ever deleted or re-added. -/
theorem applyMove_preserves_network_shape (s : GameState) (m : Move) :
    (applyMove s m).network.radius = s.network.radius ∧
    (applyMove s m).network.vertices = s.network.vertices ∧
    (applyMove s m).network.edges.map Prod.fst =
      s.network.edges.map Prod.fst ∧
    ∀ k, edgeEvolves (mapGet s.network.edges k)
      (mapGet (applyMove s m).network.edges k) = true := by
  rw [applyMove_network]
  unfold preEndState
  refine ⟨rfl, rfl, ?_, ?_⟩
  · cases ht : m.type <;> cases hmto : m.mto <;> cases hec : m.edgeCut <;>
      dsimp only <;>
      first
        | rfl
        | exact markEdgeRemoved_keys _ _
  · intro k
    cases ht : m.type <;> cases hmto : m.mto <;> cases hec : m.edgeCut <;>
      dsimp only <;>
      first
        | exact edgeEvolves_refl _
        | exact markEdgeRemoved_evolves _ _ _

end HexPathGame

namespace HexPathGame

/-! ## Reachable states and the player-distinctness claim -/

/-- States reachable from `s0` by applying only moves accepted by
`isValidMove`. -/
inductive ReachableFrom (s0 : GameState) : GameState → Prop where
  | refl : ReachableFrom s0 s0
  | step {s : GameState} {m : Move} : ReachableFrom s0 s →
      isValidMove s m = true → ReachableFrom s0 (applyMove s m)

/-- Both players of a state have distinct ids and distinct coordinates. -/
def PlayersDistinct (s : GameState) : Prop :=
  s.players.1.id ≠ s.players.2.id ∧
    s.players.1.position ≠ s.players.2.position

lemma isValidMove_phase {s : GameState} {m : Move}
    (h : isValidMove s m = true) : s.phase = .playing := by
  unfold isValidMove at h
  by_cases hp : s.phase = .playing
  · exact hp
  · rw [if_pos (by simpa using hp)] at h
    exact absurd h (by simp)

lemma isValidMove_player {s : GameState} {m : Move}
    (h : isValidMove s m = true) :
    m.player = (playersGet s.players s.currentPlayerIndex).id := by
  unfold isValidMove at h
  rw [if_neg (by simp [isValidMove_phase h])] at h
  by_cases hpl : m.player = (playersGet s.players s.currentPlayerIndex).id
  · exact hpl
  · rw [if_pos (by simpa using hpl)] at h
    exact absurd h (by simp)

/-- For a validated `move` action, the destination is not occupied by any
player other than the mover. -/
lemma isValidMove_dest_unoccupied {s : GameState} {m : Move}
    (h : isValidMove s m = true) (ht : m.type = .move)
    {mto : TriangularCoordinate} (hmto : m.mto = some mto) :
    ∀ op ∈ playersList s.players,
      op.id ≠ (playersGet s.players s.currentPlayerIndex).id →
        op.position ≠ mto := by
  have hph := isValidMove_phase h
  have hpl := isValidMove_player h
  unfold isValidMove at h
  rw [if_neg (by simp [hph]), if_neg (by simp [hpl]), ht] at h
  unfold validateMoveAction at h
  rw [hmto] at h
  intro op hop hid hpos
  simp only [Bool.and_eq_true] at h
  have hany := h.1.2
  rw [Bool.not_eq_true', List.any_eq_false] at hany
  have hop' := hany op hop
  simp only [Bool.and_eq_true, decide_eq_true_eq, Bool.and_eq_false_iff,
    decide_eq_false_iff_not, not_not] at hop'
  exact hop' ⟨hid, hpos⟩

/-- One validated step preserves distinctness of ids and positions. -/
lemma playersDistinct_step {s : GameState} {m : Move}
    (h : isValidMove s m = true) (hd : PlayersDistinct s) :
    PlayersDistinct (applyMove s m) := by
  obtain ⟨hid, hpos⟩ := hd
  constructor
  · rw [applyMove_players]
    unfold preEndState
    cases ht : m.type <;> cases hmto : m.mto <;> dsimp only <;>
      first
        | exact hid
        | · unfold playersSet playersGet
            by_cases hi : s.currentPlayerIndex = 0 <;> simp [hi, hid]
  · rw [applyMove_players]
    unfold preEndState
    cases ht : m.type <;> cases hmto : m.mto <;> dsimp only
    case move.some mto =>
      have hocc := isValidMove_dest_unoccupied h ht hmto
      unfold playersSet playersGet
      by_cases hi : s.currentPlayerIndex = 0
      · rw [if_pos hi, if_pos hi]
        have := hocc s.players.2 (by simp [playersList])
          (by rw [playersGet, if_pos hi]; exact fun hw => hid hw.symm)
        simp only []
        exact fun hw => this hw.symm
      · rw [if_neg hi, if_neg hi]
        have := hocc s.players.1 (by simp [playersList])
          (by rw [playersGet, if_neg hi]; exact hid)
        simp only []
        exact this
    all_goals exact hpos

/-- Claim C7, counterexample: with the default configuration `createGame`
places both players at the center, and applying a validated cut from that
state yields a state in which both players still occupy the same
coordinate. -/
theorem applyMove_same_coordinate_counterexample :
    isValidMove
        (createGame "game" ⟨"p1", "P1", "red"⟩ ⟨"p2", "P2", "blue"⟩ ⟨1, none⟩)
        ⟨.cut, "p1", none, none, some (⟨0, 0⟩, ⟨1, 0⟩), 0⟩ = true ∧
      (applyMove
          (createGame "game" ⟨"p1", "P1", "red"⟩ ⟨"p2", "P2", "blue"⟩
            ⟨1, none⟩)
          ⟨.cut, "p1", none, none, some (⟨0, 0⟩, ⟨1, 0⟩), 0⟩).players.1.position =
        (applyMove
            (createGame "game" ⟨"p1", "P1", "red"⟩ ⟨"p2", "P2", "blue"⟩
              ⟨1, none⟩)
            ⟨.cut, "p1", none, none, some (⟨0, 0⟩, ⟨1, 0⟩), 0⟩).players.2.position := by
  decide

/-- Claim C7, amended: whenever the two players of a `createGame` state have
distinct ids and distinct start coordinates, no sequence of validated moves
ever produces a state in which both players occupy the same coordinate. -/
theorem reachable_players_distinct (gameId : String)
    (p1 p2 : PlayerIdentity) (config : GameConfig)
    (hid : p1.id ≠ p2.id)
    (hstart : (createGame gameId p1 p2 config).players.1.position ≠
      (createGame gameId p1 p2 config).players.2.position)
    (s : GameState) (hr : ReachableFrom (createGame gameId p1 p2 config) s) :
    s.players.1.position ≠ s.players.2.position := by
  have hbase : PlayersDistinct (createGame gameId p1 p2 config) :=
    ⟨by simpa [createGame] using hid, hstart⟩
  have : PlayersDistinct s := by
    induction hr with
    | refl => exact hbase
    | step hr hv ih => exact playersDistinct_step hv ih
  exact this.2

/-- Witness for the amended claim C7 at a concrete game. -/
theorem reachable_players_distinct_witness :
    (createGame "game" ⟨"p1", "P1", "red"⟩ ⟨"p2", "P2", "blue"⟩
        ⟨1, some (⟨0, 0⟩, ⟨1, 0⟩)⟩).players.1.position ≠
      (createGame "game" ⟨"p1", "P1", "red"⟩ ⟨"p2", "P2", "blue"⟩
          ⟨1, some (⟨0, 0⟩, ⟨1, 0⟩)⟩).players.2.position :=
  reachable_players_distinct "game" ⟨"p1", "P1", "red"⟩ ⟨"p2", "P2", "blue"⟩
    ⟨1, some (⟨0, 0⟩, ⟨1, 0⟩)⟩ (by decide) (by decide) _ .refl

end HexPathGame

namespace HexPathGame

/-! ## Geometry lemmas for the terminal-state invariant -/

lemma isInRadius_iff {c : TriangularCoordinate} {r : Int} :
    isInRadius c r = true ↔
      -r ≤ c.u ∧ c.u ≤ r ∧ -r ≤ c.v ∧ c.v ≤ r ∧
        -r ≤ c.u + c.v ∧ c.u + c.v ≤ r := by
  unfold isInRadius
  simp only [Bool.and_eq_true, decide_eq_true_eq, abs_le]
  constructor
  · rintro ⟨⟨⟨h1, h2⟩, h3, h4⟩, h5, h6⟩
    omega
  · intro h
    omega

/-- On a board of radius at least 1, every in-radius vertex has an in-radius
neighbor. -/
lemma exists_inRadius_neighbor {c : TriangularCoordinate} {r : Int}
    (hr : 1 ≤ r) (hc : isInRadius c r = true) :
    ∃ d ∈ unitDirections,
      isInRadius ⟨c.u + d.u, c.v + d.v⟩ r = true := by
  rw [isInRadius_iff] at hc
  by_cases hup : 0 < c.u
  · by_cases hvn : c.v < 0
    · exact ⟨⟨-1, 1⟩, by decide, by rw [isInRadius_iff]; dsimp only; omega⟩
    · exact ⟨⟨-1, 0⟩, by decide, by rw [isInRadius_iff]; dsimp only; omega⟩
  · by_cases hun : c.u < 0
    · by_cases hvp : 0 < c.v
      · exact ⟨⟨1, -1⟩, by decide, by rw [isInRadius_iff]; dsimp only; omega⟩
      · exact ⟨⟨1, 0⟩, by decide, by rw [isInRadius_iff]; dsimp only; omega⟩
    · by_cases hvp : 0 < c.v
      · exact ⟨⟨0, -1⟩, by decide, by rw [isInRadius_iff]; dsimp only; omega⟩
      · by_cases hvn : c.v < 0
        · exact ⟨⟨0, 1⟩, by decide, by rw [isInRadius_iff]; dsimp only; omega⟩
        · exact ⟨⟨1, 0⟩, by decide, by rw [isInRadius_iff]; dsimp only; omega⟩

lemma neg_mem_unitDirections {d : TriangularCoordinate}
    (hd : d ∈ unitDirections) :
    (⟨-d.u, -d.v⟩ : TriangularCoordinate) ∈ unitDirections := by
  simp only [unitDirections, List.mem_cons, List.not_mem_nil, or_false] at hd ⊢
  rcases hd with rfl | rfl | rfl | rfl | rfl | rfl <;> simp

lemma mem_getNeighbors_of_dir {c d : TriangularCoordinate}
    (hd : d ∈ unitDirections) :
    (⟨c.u + d.u, c.v + d.v⟩ : TriangularCoordinate) ∈ getNeighbors c := by
  unfold getNeighbors
  exact List.mem_map.mpr ⟨d, hd, rfl⟩

lemma getNeighbors_symm {a b : TriangularCoordinate}
    (hb : b ∈ getNeighbors a) : a ∈ getNeighbors b := by
  unfold getNeighbors at hb ⊢
  rw [List.mem_map] at hb ⊢
  obtain ⟨d, hd, hbd⟩ := hb
  refine ⟨⟨-d.u, -d.v⟩, neg_mem_unitDirections hd, ?_⟩
  obtain ⟨au, av⟩ := a
  cases hbd
  simp only [TriangularCoordinate.mk.injEq]
  omega

lemma distance_add_dir (c : TriangularCoordinate)
    {d : TriangularCoordinate} (hd : d ∈ unitDirections) :
    distance c ⟨c.u + d.u, c.v + d.v⟩ = 1 := by
  simp only [unitDirections, List.mem_cons, List.not_mem_nil, or_false] at hd
  rcases hd with rfl | rfl | rfl | rfl | rfl | rfl <;>
    · unfold distance
      dsimp only
      ring_nf
      norm_num

lemma keyLt_total {a b : TriangularCoordinate} (h : a ≠ b) :
    keyLt a b = true ∨ keyLt b a = true := by
  unfold keyLt
  simp only [Bool.or_eq_true, Bool.and_eq_true, decide_eq_true_eq]
  by_cases hu : a.u = b.u
  · have hv : a.v ≠ b.v := by
      intro hv
      exact h (by cases a; cases b; simp_all)
    omega
  · omega

end HexPathGame

namespace HexPathGame

/-! ## The freshly built edge map of `createGame` -/

lemma mapGet_mapSet_self (m : EdgeMap)
    (k : TriangularCoordinate × TriangularCoordinate) (v : Edge) :
    mapGet (mapSet m k v) k = some v := by
  unfold mapSet
  by_cases hp : (m.find? (fun kv => kv.1 = k)).isSome
  · rw [if_pos hp, mapGet_replace_self, if_pos hp]
  · rw [if_neg hp]
    induction m with
    | nil =>
      unfold mapGet
      have : ((([] : EdgeMap) ++ [(k, v)])).find? (fun kv => kv.1 = k) =
          some (k, v) := List.find?_cons_of_pos _ (by simp)
      rw [this]
      rfl
    | cons kv t ih =>
      have hkv : ¬ kv.1 = k := by
        intro hkv
        exact hp (by
          have : (kv :: t).find? (fun kv => kv.1 = k) = some kv :=
            List.find?_cons_of_pos _ (by simp [hkv])
          rw [this]
          simp)
      have ht : ¬ (t.find? (fun kv => kv.1 = k)).isSome := by
        intro hsome
        apply hp
        have : (kv :: t).find? (fun kv => kv.1 = k) =
            t.find? (fun kv => kv.1 = k) :=
          List.find?_cons_of_neg _ (by simp [hkv])
        rw [this]
        exact hsome
      have hstep : ((kv :: t) ++ [(k, v)]).find? (fun kv => kv.1 = k) =
          (t ++ [(k, v)]).find? (fun kv => kv.1 = k) :=
        List.find?_cons_of_neg _ (by simp [hkv])
      unfold mapGet
      rw [hstep]
      have := ih ht
      unfold mapGet at this
      exact this

lemma mapGet_mapSet_ne (m : EdgeMap)
    (k k' : TriangularCoordinate × TriangularCoordinate) (v : Edge)
    (hne : k' ≠ k) : mapGet (mapSet m k v) k' = mapGet m k' := by
  unfold mapSet
  by_cases hp : (m.find? (fun kv => kv.1 = k)).isSome
  · rw [if_pos hp]
    exact mapGet_replace_ne m k k' v hne
  · rw [if_neg hp]
    induction m with
    | nil =>
      unfold mapGet
      have : ((([] : EdgeMap) ++ [(k, v)])).find? (fun kv => kv.1 = k') =
          none := List.find?_cons_of_neg _ (by simp [Ne.symm hne]) |>.trans rfl
      rw [this]
      rfl
    | cons kv t ih =>
      by_cases hkv : kv.1 = k'
      · have h1 : ((kv :: t) ++ [(k, v)]).find? (fun kv => kv.1 = k') =
            some kv := List.find?_cons_of_pos _ (by simp [hkv])
        have h2 : (kv :: t).find? (fun kv => kv.1 = k') = some kv :=
          List.find?_cons_of_pos _ (by simp [hkv])
        unfold mapGet
        rw [h1, h2]
      · have h1 : ((kv :: t) ++ [(k, v)]).find? (fun kv => kv.1 = k') =
            (t ++ [(k, v)]).find? (fun kv => kv.1 = k') :=
          List.find?_cons_of_neg _ (by simp [hkv])
        have h2 : (kv :: t).find? (fun kv => kv.1 = k') =
            t.find? (fun kv => kv.1 = k') :=
          List.find?_cons_of_neg _ (by simp [hkv])
        have hpt : ¬ (t.find? (fun kv => kv.1 = k)).isSome := by
          intro hsome
          apply hp
          by_cases hkvk : kv.1 = k
          · have : (kv :: t).find? (fun kv => kv.1 = k) = some kv :=
              List.find?_cons_of_pos _ (by simp [hkvk])
            rw [this]; simp
          · have : (kv :: t).find? (fun kv => kv.1 = k) =
                t.find? (fun kv => kv.1 = k) :=
              List.find?_cons_of_neg _ (by simp [hkvk])
            rw [this]; exact hsome
        unfold mapGet
        rw [h1, h2]
        have := ih hpt
        unfold mapGet at this
        exact this

lemma mem_intRange {lo hi x : Int} (h1 : lo ≤ x) (h2 : x ≤ hi) :
    x ∈ intRange lo hi := by
  unfold intRange
  have hm : (x - lo).toNat ∈ List.range (hi - lo + 1).toNat :=
    List.mem_range.mpr (by omega)
  have hx : lo + ((x - lo).toNat : Int) = x := by omega
  have hmem := List.mem_map_of_mem (fun k : Nat => lo + (k : Int)) hm
  dsimp only at hmem
  rw [hx] at hmem
  exact hmem

lemma mem_generateVertices {c : TriangularCoordinate} {r : Int}
    (hc : isInRadius c r = true) : c ∈ generateVertices r := by
  have hb := isInRadius_iff.mp hc
  unfold generateVertices
  rw [List.mem_flatMap]
  refine ⟨c.u, mem_intRange (by omega) (by omega), ?_⟩
  rw [List.mem_map]
  refine ⟨c.v, ?_, rfl⟩
  rw [List.mem_filter]
  exact ⟨mem_intRange (by omega) (by omega), hc⟩

lemma mem_generateEdges {r : Int} {a b : TriangularCoordinate}
    (ha : isInRadius a r = true) (hb : isInRadius b r = true)
    (hadj : b ∈ getNeighbors a) (hlt : keyLt a b = true) :
    (a, b) ∈ generateEdges r := by
  unfold generateEdges
  rw [List.mem_flatMap]
  refine ⟨a, mem_generateVertices ha, ?_⟩
  rw [List.mem_filterMap]
  refine ⟨b, ?_, by rw [if_pos hlt]⟩
  rw [List.mem_filter]
  exact ⟨hadj, hb⟩

lemma generateEdges_canonical {r : Int} :
    ∀ p ∈ generateEdges r, keyLt p.1 p.2 = true := by
  intro p hp
  unfold generateEdges at hp
  rw [List.mem_flatMap] at hp
  obtain ⟨x, _, hx⟩ := hp
  rw [List.mem_filterMap] at hx
  obtain ⟨y, _, hy⟩ := hx
  by_cases hlt : keyLt x y = true
  · rw [if_pos hlt] at hy
    cases hy
    exact hlt
  · rw [if_neg hlt] at hy
    exact absurd hy (by simp)

lemma foldl_buildStep_get_of_not_mem (l : List (TriangularCoordinate × TriangularCoordinate))
    (acc : EdgeMap) (hcanon : ∀ p ∈ l, keyLt p.1 p.2 = true)
    {k : TriangularCoordinate × TriangularCoordinate}
    (hk : ∀ p ∈ l, (p.1, p.2) ≠ k) :
    mapGet (l.foldl
        (fun m ft => mapSet m (getEdgeKey ft.1 ft.2) ⟨ft.1, ft.2, false⟩)
        acc) k = mapGet acc k := by
  induction l generalizing acc with
  | nil => rfl
  | cons p t ih =>
    rw [List.foldl_cons]
    have hkey : getEdgeKey p.1 p.2 = (p.1, p.2) := by
      unfold getEdgeKey
      rw [if_pos (hcanon p (by simp))]
    rw [ih _ (fun q hq => hcanon q (List.mem_cons_of_mem _ hq))
      (fun q hq => hk q (List.mem_cons_of_mem _ hq)), hkey,
      mapGet_mapSet_ne _ _ _ _ (fun he => hk p (List.mem_cons_self _ _) he.symm)]

lemma foldl_buildStep_get_of_mem (l : List (TriangularCoordinate × TriangularCoordinate))
    (acc : EdgeMap) (hcanon : ∀ p ∈ l, keyLt p.1 p.2 = true)
    {a b : TriangularCoordinate} (hmem : (a, b) ∈ l) :
    mapGet (l.foldl
        (fun m ft => mapSet m (getEdgeKey ft.1 ft.2) ⟨ft.1, ft.2, false⟩)
        acc) (a, b) = some ⟨a, b, false⟩ := by
  induction l generalizing acc with
  | nil => exact absurd hmem (by simp)
  | cons p t ih =>
    rw [List.foldl_cons]
    by_cases hmt : (a, b) ∈ t
    · exact ih _ (fun q hq => hcanon q (List.mem_cons_of_mem _ hq)) hmt
    · have hp : p = (a, b) := by
        rcases List.mem_cons.mp hmem with h | h
        · exact h.symm
        · exact absurd h hmt
      subst hp
      have hkey : getEdgeKey a b = (a, b) := by
        unfold getEdgeKey
        rw [if_pos (hcanon (a, b) (by simp))]
      rw [foldl_buildStep_get_of_not_mem t _
        (fun q hq => hcanon q (List.mem_cons_of_mem _ hq))
        (fun q hq he => hmt (by rw [← he]; exact hq)),
        hkey, mapGet_mapSet_self]

/-- Looking up the canonical key of an adjacent in-radius pair in the freshly
built edge map finds an unremoved edge whose endpoints are that pair. -/
lemma buildEdgeMap_get_adjacent {r : Int} {a b : TriangularCoordinate}
    (ha : isInRadius a r = true) (hb : isInRadius b r = true)
    (hadj : b ∈ getNeighbors a) (hne : a ≠ b) :
    (getEdgeKey a b, (⟨(getEdgeKey a b).1, (getEdgeKey a b).2, false⟩ : Edge)) ∈
        buildEdgeMap r ∧
      ((getEdgeKey a b).1 = a ∧ (getEdgeKey a b).2 = b ∨
        (getEdgeKey a b).1 = b ∧ (getEdgeKey a b).2 = a) := by
  have hget :
      mapGet (buildEdgeMap r) (getEdgeKey a b) =
        some ⟨(getEdgeKey a b).1, (getEdgeKey a b).2, false⟩ ∧
      ((getEdgeKey a b).1 = a ∧ (getEdgeKey a b).2 = b ∨
        (getEdgeKey a b).1 = b ∧ (getEdgeKey a b).2 = a) := by
    rcases keyLt_total hne with hlt | hlt
    · have hkey : getEdgeKey a b = (a, b) := by
        unfold getEdgeKey; rw [if_pos hlt]
      rw [hkey]
      refine ⟨?_, by simp⟩
      exact foldl_buildStep_get_of_mem _ _ (fun p hp => generateEdges_canonical p hp)
        (mem_generateEdges ha hb hadj hlt)
    · have hkey : getEdgeKey a b = (b, a) := by
        unfold getEdgeKey
        rw [if_neg]
        intro hab
        unfold keyLt at hab hlt
        simp only [Bool.or_eq_true, Bool.and_eq_true, decide_eq_true_eq] at hab hlt
        omega
      rw [hkey]
      refine ⟨?_, by simp⟩
      exact foldl_buildStep_get_of_mem _ _ (fun p hp => generateEdges_canonical p hp)
        (mem_generateEdges hb ha (getNeighbors_symm hadj) hlt)
  obtain ⟨hget', hor⟩ := hget
  refine ⟨?_, hor⟩
  unfold mapGet at hget'
  cases hf : (buildEdgeMap r).find? (fun kv => kv.1 = getEdgeKey a b) with
  | none => rw [hf] at hget'; exact absurd hget' (by simp)
  | some kv =>
    rw [hf] at hget'
    have hkv1 : kv.1 = getEdgeKey a b := by
      have := List.find?_some hf
      simpa using this
    have hkv2 : kv.2 = ⟨(getEdgeKey a b).1, (getEdgeKey a b).2, false⟩ := by
      simpa using hget'
    have hmem := List.mem_of_find?_eq_some hf
    rw [← hkv1] at hkv2 ⊢
    rw [← hkv2]
    simpa using hmem

end HexPathGame

namespace HexPathGame

/-! ## Terminal-state invariant (claim C4) -/

/-- Start positions determined by the configuration (custom positions if
given, otherwise the lattice center), as computed by `createGame`. -/
def startPos (config : GameConfig) :
    TriangularCoordinate × TriangularCoordinate :=
  match config.customStartPositions with
  | some ps => ps
  | none => (⟨0, 0⟩, ⟨0, 0⟩)

/-- A valid configuration: positive radius and both start positions on the
board. -/
def ValidConfig (config : GameConfig) : Prop :=
  1 ≤ config.gridRadius ∧
    isInRadius (startPos config).1 config.gridRadius = true ∧
    isInRadius (startPos config).2 config.gridRadius = true

lemma createGame_players (gameId : String) (p1 p2 : PlayerIdentity)
    (config : GameConfig) :
    (createGame gameId p1 p2 config).players =
      (⟨p1.id, p1.name, p1.color, (startPos config).1⟩,
       ⟨p2.id, p2.name, p2.color, (startPos config).2⟩) := by
  unfold createGame startPos
  cases config.customStartPositions <;> rfl

lemma unitDirection_ne_zero {d : TriangularCoordinate}
    (hd : d ∈ unitDirections) : ¬(d.u = 0 ∧ d.v = 0) := by
  simp only [unitDirections, List.mem_cons, List.not_mem_nil, or_false] at hd
  rcases hd with rfl | rfl | rfl | rfl | rfl | rfl <;> simp

/-- Any player standing on the board of a state whose edge map is the freshly
built one has at least one legal cut. -/
lemma cuts_ne_nil_of_freshEdges {s : GameState} {p : Player}
    (hr : 1 ≤ s.network.radius)
    (hpos : isInRadius p.position s.network.radius = true)
    (hedges : s.network.edges = buildEdgeMap s.network.radius) :
    (getValidMoves s p).cuts ≠ [] := by
  obtain ⟨d, hd, hnd⟩ := exists_inRadius_neighbor hr hpos
  have hadj : (⟨p.position.u + d.u, p.position.v + d.v⟩ :
      TriangularCoordinate) ∈ getNeighbors p.position :=
    mem_getNeighbors_of_dir hd
  have hne : p.position ≠ ⟨p.position.u + d.u, p.position.v + d.v⟩ := by
    intro he
    have hz := unitDirection_ne_zero hd
    have hu := congrArg TriangularCoordinate.u he
    have hv' := congrArg TriangularCoordinate.v he
    dsimp only at hu hv'
    exact hz ⟨by omega, by omega⟩
  have hdist : distance p.position
      ⟨p.position.u + d.u, p.position.v + d.v⟩ = 1 :=
    distance_add_dir p.position hd
  obtain ⟨hmem, hor⟩ := buildEdgeMap_get_adjacent hpos hnd hadj hne
  set n : TriangularCoordinate :=
    ⟨p.position.u + d.u, p.position.v + d.v⟩ with hn
  set k := getEdgeKey p.position n with hk
  have hcond : (decide (distance p.position k.1 = 1) ||
      decide (distance p.position k.2 = 1)) = true := by
    rcases hor with ⟨h1, h2⟩ | ⟨h1, h2⟩
    · rw [h2]
      simp [hdist]
    · rw [h1]
      simp [hdist]
  have hfm : (fun kv : (TriangularCoordinate × TriangularCoordinate) × Edge =>
      if kv.2.removed then none
      else if decide (distance p.position kv.2.efrom = 1) ||
          decide (distance p.position kv.2.eto = 1) then
        some (kv.2.efrom, kv.2.eto)
      else none) (k, ⟨k.1, k.2, false⟩) = some (k.1, k.2) := by
    simp only [Bool.false_eq_true, if_false]
    rw [if_pos hcond]
  have hcmem : (k.1, k.2) ∈ (getValidMoves s p).cuts := by
    unfold getValidMoves
    dsimp only
    refine List.mem_filterMap.mpr ⟨(k, ⟨k.1, k.2, false⟩), ?_, hfm⟩
    rw [hedges]
    exact hmem
  exact List.ne_nil_of_mem hcmem

lemma of_checkGameEnd_some {s : GameState} {ge : GameEnd}
    (h : checkGameEnd s = some ge) :
    (getValidMoves s (playersGet s.players s.currentPlayerIndex)).moves = [] ∧
    (getValidMoves s (playersGet s.players s.currentPlayerIndex)).cuts = [] ∧
    ge.winner = (playersGet s.players (1 - s.currentPlayerIndex)).id := by
  unfold checkGameEnd at h
  by_cases hcond : ((getValidMoves s
      (playersGet s.players s.currentPlayerIndex)).moves.isEmpty &&
      (getValidMoves s (playersGet s.players s.currentPlayerIndex)).cuts.isEmpty) = true
  · rw [if_pos hcond] at h
    simp only [Bool.and_eq_true, List.isEmpty_iff] at hcond
    cases h
    exact ⟨hcond.1, hcond.2, rfl⟩
  · rw [if_neg hcond] at h
    exact absurd h (by simp)

lemma of_checkGameEnd_none {s : GameState}
    (h : checkGameEnd s = none) :
    ¬((getValidMoves s (playersGet s.players s.currentPlayerIndex)).moves = [] ∧
      (getValidMoves s (playersGet s.players s.currentPlayerIndex)).cuts = []) := by
  unfold checkGameEnd at h
  by_cases hcond : ((getValidMoves s
      (playersGet s.players s.currentPlayerIndex)).moves.isEmpty &&
      (getValidMoves s (playersGet s.players s.currentPlayerIndex)).cuts.isEmpty) = true
  · rw [if_pos hcond] at h
    exact absurd h (by simp)
  · intro hboth
    apply hcond
    simp only [Bool.and_eq_true, List.isEmpty_iff]
    exact hboth

/-- The terminal-state invariant of claim C4. -/
def TerminalInv (s : GameState) : Prop :=
  (s.phase = .finished ↔
    (getValidMoves s (playersGet s.players s.currentPlayerIndex)).moves = [] ∧
    (getValidMoves s (playersGet s.players s.currentPlayerIndex)).cuts = []) ∧
  (s.phase = .finished →
    s.winner = some (playersGet s.players (1 - s.currentPlayerIndex)).id)

lemma preEndState_phase (s : GameState) (m : Move) :
    (preEndState s m).phase = s.phase := rfl

lemma terminalInv_applyMove {s : GameState} {m : Move}
    (hv : isValidMove s m = true) : TerminalInv (applyMove s m) := by
  rw [applyMove_eq]
  cases hG : checkGameEnd (preEndState s m) with
  | some ge =>
    obtain ⟨hm, hc, hw⟩ := of_checkGameEnd_some hG
    unfold TerminalInv
    dsimp only
    refine ⟨⟨fun _ => ⟨hm, hc⟩, fun _ => rfl⟩, fun _ => ?_⟩
    rw [hw]
  | none =>
    have hne := of_checkGameEnd_none hG
    have hph : (preEndState s m).phase = .playing := by
      rw [preEndState_phase]
      exact isValidMove_phase hv
    refine ⟨⟨fun hfin => ?_, fun hboth => absurd hboth hne⟩, fun hfin => ?_⟩
    · rw [hph] at hfin
      exact absurd hfin (by simp)
    · rw [hph] at hfin
      exact absurd hfin (by simp)

lemma terminalInv_createGame (gameId : String) (p1 p2 : PlayerIdentity)
    (config : GameConfig) (hvc : ValidConfig config) :
    TerminalInv (createGame gameId p1 p2 config) := by
  have hph : (createGame gameId p1 p2 config).phase = .playing := rfl
  have hcuts : (getValidMoves (createGame gameId p1 p2 config)
      (playersGet (createGame gameId p1 p2 config).players
        (createGame gameId p1 p2 config).currentPlayerIndex)).cuts ≠ [] := by
    apply cuts_ne_nil_of_freshEdges
    · exact hvc.1
    · have hpl := createGame_players gameId p1 p2 config
      have : playersGet (createGame gameId p1 p2 config).players
          (createGame gameId p1 p2 config).currentPlayerIndex =
          ⟨p1.id, p1.name, p1.color, (startPos config).1⟩ := by
        rw [hpl]
        rfl
      rw [this]
      exact hvc.2.1
    · rfl
  refine ⟨⟨fun hfin => ?_, fun hboth => absurd hboth.2 hcuts⟩, fun hfin => ?_⟩
  · rw [hph] at hfin
    exact absurd hfin (by simp)
  · rw [hph] at hfin
    exact absurd hfin (by simp)

/-- Claim C4: in every state reachable from `createGame` with a valid
configuration by validated moves, the phase is `finished` exactly when the
player to move has no legal moves and no legal cuts, and in a finished state
the recorded winner is the other player (the one who just moved), never the
stuck player. -/
theorem reachable_terminal_iff (gameId : String) (p1 p2 : PlayerIdentity)
    (config : GameConfig) (hvc : ValidConfig config) (s : GameState)
    (hr : ReachableFrom (createGame gameId p1 p2 config) s) :
    (s.phase = .finished ↔
      (getValidMoves s (playersGet s.players s.currentPlayerIndex)).moves = [] ∧
      (getValidMoves s (playersGet s.players s.currentPlayerIndex)).cuts = []) ∧
    (s.phase = .finished →
      s.winner = some (playersGet s.players (1 - s.currentPlayerIndex)).id) := by
  induction hr with
  | refl => exact terminalInv_createGame gameId p1 p2 config hvc
  | step hr hv ih => exact terminalInv_applyMove hv

/-- Witness for claim C4 at a concrete radius-1 game. -/
theorem reachable_terminal_iff_witness :
    ((createGame "game" ⟨"p1", "P1", "red"⟩ ⟨"p2", "P2", "blue"⟩
        ⟨1, none⟩).phase = .finished ↔
      (getValidMoves (createGame "game" ⟨"p1", "P1", "red"⟩
          ⟨"p2", "P2", "blue"⟩ ⟨1, none⟩)
        (playersGet (createGame "game" ⟨"p1", "P1", "red"⟩
            ⟨"p2", "P2", "blue"⟩ ⟨1, none⟩).players
          (createGame "game" ⟨"p1", "P1", "red"⟩ ⟨"p2", "P2", "blue"⟩
            ⟨1, none⟩).currentPlayerIndex)).moves = [] ∧
      (getValidMoves (createGame "game" ⟨"p1", "P1", "red"⟩
          ⟨"p2", "P2", "blue"⟩ ⟨1, none⟩)
        (playersGet (createGame "game" ⟨"p1", "P1", "red"⟩
            ⟨"p2", "P2", "blue"⟩ ⟨1, none⟩).players
          (createGame "game" ⟨"p1", "P1", "red"⟩ ⟨"p2", "P2", "blue"⟩
            ⟨1, none⟩).currentPlayerIndex)).cuts = []) ∧
    ((createGame "game" ⟨"p1", "P1", "red"⟩ ⟨"p2", "P2", "blue"⟩
        ⟨1, none⟩).phase = .finished →
      (createGame "game" ⟨"p1", "P1", "red"⟩ ⟨"p2", "P2", "blue"⟩
          ⟨1, none⟩).winner =
        some (playersGet (createGame "game" ⟨"p1", "P1", "red"⟩
            ⟨"p2", "P2", "blue"⟩ ⟨1, none⟩).players
          (1 - (createGame "game" ⟨"p1", "P1", "red"⟩ ⟨"p2", "P2", "blue"⟩
            ⟨1, none⟩).currentPlayerIndex)).id) :=
  reachable_terminal_iff "game" ⟨"p1", "P1", "red"⟩ ⟨"p2", "P2", "blue"⟩
    ⟨1, none⟩ (by constructor; decide; constructor <;> decide) _ .refl

end HexPathGame

namespace HexPathGame

/-! ## MCTS configuration: `client/src/ai/bots/mcts/MCTSConfig.ts` -/

/-- Rollout move policy: `'random' | 'biased'`. -/
inductive SimulationPolicy where
  | random
  | biased
deriving DecidableEq

/-- Tree-traversal selection policy: `'ucb1' | 'robust'`. -/
inductive SelectionPolicy where
  | ucb1
  | robust
deriving DecidableEq

/-- Expansion policy: `'single' | 'all'`. -/
inductive ExpansionPolicy where
  | single
  | all
deriving DecidableEq

/-- Final move selection policy:
`'most_visits' | 'best_winrate' | 'robust'`. -/
inductive FinalMoveSelection where
  | most_visits
  | best_winrate
  | robust
deriving DecidableEq

/-- Configuration parameters of the MCTS engine.  The wall-clock limit
`maxThinkingTimeMs` is carried for completeness; the deadline itself is
modelled by the `timeFuel` argument of `search`. -/
structure MCTSConfig where
  maxSimulations : Nat
  explorationConstant : Real
  maxThinkingTimeMs : Nat
  maxTreeDepth : Nat
  simulationPolicy : SimulationPolicy
  maxSimulationDepth : Nat
  selectionPolicy : SelectionPolicy
  expansionPolicy : ExpansionPolicy
  finalMoveSelection : FinalMoveSelection
  enableTreeReuse : Bool
  enableParallelization : Bool
  enableDebugLogging : Bool
  logInterval : Nat

/-! ## Search tree node: `client/src/ai/bots/mcts/MCTSNode.ts` -/

/-- Visit/win statistics of one tree node, the part of `MCTSNode` updated by
`backpropagate`. -/
structure NodeStats where
  visits : Nat
  wins : Rat
deriving DecidableEq

/-- `MCTSNode.backpropagate` along the parent chain
`node :: parent :: ... :: root`: add 1 visit and the result to the current
node, then recurse to the parent with the flipped result `1 - result`. -/
def backpropagate (result : Rat) : List NodeStats → List NodeStats
  | [] => []
  | node :: ancestors =>
    { visits := node.visits + 1, wins := node.wins + result } ::
      backpropagate (1 - result) ancestors

/-- Per-node payload of the search tree (`MCTSNode` minus the parent/child
links, which the tree structure itself provides). -/
structure NodeData where
  move : Option Move
  visits : Nat
  wins : Rat
  isFullyExpanded : Bool
  untriedMoves : List Move
  gameState : GameState
  playerToMove : Player
deriving DecidableEq

/-- The search tree owned by the engine. -/
inductive MCTSTree where
  | node : NodeData → List MCTSTree → MCTSTree

/-- Payload of the root node of a tree. -/
def MCTSTree.data : MCTSTree → NodeData
  | .node d _ => d

/-- Children of the root node of a tree. -/
def MCTSTree.children : MCTSTree → List MCTSTree
  | .node _ cs => cs

/-- The `MCTSNode` constructor: fresh statistics, `playerToMove` read from
the wrapped state's `currentPlayerIndex`. -/
def mkNode (gameState : GameState) (move : Option Move) : NodeData :=
  { move := move
    visits := 0
    wins := 0
    isFullyExpanded := false
    untriedMoves := []
    gameState := gameState
    playerToMove := playersGet gameState.players gameState.currentPlayerIndex }

/-- `MCTSNode.isTerminal`. -/
def isTerminal (d : NodeData) : Bool :=
  d.gameState.phase = .finished

/-- `MCTSNode.canExpand`. -/
def canExpand (d : NodeData) : Bool :=
  !d.isFullyExpanded && !isTerminal d

/-- `MCTSNode.getUCB1Value` as evaluated on a child during selection: the
selecting node is the parent, so `parentVisits` is its visit count (the
source's parentless-root branch never applies to a child).  An unvisited
node scores `Infinity`, modelled as the top element of `EReal`. -/
noncomputable def getUCB1Value (explorationConstant : Real)
    (parentVisits : Nat) (visits : Nat) (wins : Rat) : EReal :=
  if visits = 0 then
    ⊤
  else
    (((wins : Real) / (visits : Real) +
        explorationConstant *
          Real.sqrt (Real.log (parentVisits : Real) / (visits : Real)) :
      Real) : EReal)

/-- `MCTSNode.selectBestChild` of the active `MCTSNode.ts`, returning the
index of the chosen child: start from child 0 and keep any later child whose
`getUCB1Value` is strictly greater. -/
noncomputable def selectBestChildIdx (explorationConstant : Real)
    (selfVisits : Nat) (children : List MCTSTree) : Nat :=
  match children with
  | [] => 0
  | c0 :: rest =>
    (rest.enum.foldl
      (fun best p =>
        let value := getUCB1Value explorationConstant selfVisits
          p.2.data.visits p.2.data.wins
        if value > best.2 then (p.1 + 1, value) else best)
      (0, getUCB1Value explorationConstant selfVisits c0.data.visits
        c0.data.wins)).1

/-- `MCTSNode.getInvertedUCB1Value` of the RESTORED `MCTSNode` variant kept
in `gameStateCloning.ts`: exploitation inverted to `1 - wins/visits`. -/
noncomputable def getInvertedUCB1Value (explorationConstant : Real)
    (selfVisits : Nat) (childVisits : Nat) (childWins : Rat) : EReal :=
  if childVisits = 0 then
    ⊤
  else
    ((((1 : Real) - (childWins : Real) / (childVisits : Real)) +
        explorationConstant *
          Real.sqrt (Real.log (selfVisits : Real) / (childVisits : Real)) :
      Real) : EReal)

/-- `selectBestChild` of the RESTORED `MCTSNode` variant, which ranks the
children by `getInvertedUCB1Value`. -/
noncomputable def selectBestChildIdxRestored (explorationConstant : Real)
    (selfVisits : Nat) (children : List MCTSTree) : Nat :=
  match children with
  | [] => 0
  | c0 :: rest =>
    (rest.enum.foldl
      (fun best p =>
        let value := getInvertedUCB1Value explorationConstant selfVisits
          p.2.data.visits p.2.data.wins
        if value > best.2 then (p.1 + 1, value) else best)
      (0, getInvertedUCB1Value explorationConstant selfVisits c0.data.visits
        c0.data.wins)).1

end HexPathGame

namespace HexPathGame

/-! ## Search engine: `client/src/ai/bots/mcts/MCTSEngine.ts` -/

/-- Placeholder move used to totalize list indexing (never produced: every
index used is in range by construction, as in the source). -/
def defaultMove : Move :=
  ⟨.move, "", none, none, none, 0⟩

/-- Placeholder coordinate used to totalize list indexing. -/
def defaultCoord : TriangularCoordinate :=
  ⟨0, 0⟩

/-- `Math.floor(Math.random() * len)` for one drawn value `q`: the floor
`⌊q · len⌋` is computed as the Euclidean quotient of `q.num * len` by
`q.den` (equal to the floor since the denominator is positive;
`randIdx_eq_floor` below proves the equality).  The final `% len` is the
identity whenever `0 ≤ q < 1` (the contract of `Math.random`), and merely
totalizes the function elsewhere. -/
def randIdx (q : Rat) (len : Nat) : Nat :=
  ((q.num * len).ediv q.den).toNat % len

/-- The quotient computed by `randIdx` is the floor of `q · len`. -/
lemma randIdx_eq_floor (q : Rat) (len : Nat) :
    randIdx q len = (⌊q * (len : Rat)⌋).toNat % len := by
  unfold randIdx
  have hq : q * (len : Rat) =
      ((q.num * len : Int) : Rat) / ((q.den : Nat) : Rat) := by
    conv_lhs => rw [← Rat.num_div_den q]
    push_cast
    ring
  rw [hq, Rat.floor_intCast_div_natCast]
  rfl

/-- `MCTSEngine.prepareNodeForExpansion`: terminal nodes become fully
expanded with no untried moves; otherwise the untried moves are the `moves`
of `getValidMoves`, each converted to a `'move'`-typed `Move` for the node's
player to move (the coordinate-bug debug logging has no effect on the
result). -/
def prepareNodeForExpansion (d : NodeData) : NodeData :=
  if isTerminal d then
    { d with isFullyExpanded := true, untriedMoves := [] }
  else
    { d with
        untriedMoves :=
          (getValidMoves d.gameState d.playerToMove).moves.map
            (fun destination =>
              ⟨.move, d.playerToMove.id, some d.playerToMove.position,
                some destination, none, 0⟩) }

/-- `MCTSEngine.selectNode` as the path of child indices it descends: stop
at a terminal node, at an expandable node, or at a childless node; otherwise
follow the UCB1-best child.  The source's `while` loop terminates because
the tree is finite; the `fuel` argument bounds the descent depth and the
callers pass a bound that exceeds any depth the tree can reach, so the
fuel-exhaustion branch is never taken. -/
noncomputable def selectPath (explorationConstant : Real) :
    Nat → MCTSTree → List Nat
  | 0, _ => []
  | fuel + 1, .node d cs =>
    if isTerminal d then
      []
    else if canExpand d then
      []
    else
      match cs.get? (selectBestChildIdx explorationConstant d.visits cs) with
      | some c => selectBestChildIdx explorationConstant d.visits cs ::
          selectPath explorationConstant fuel c
      | none => []

/-- Subtree at a path of child indices. -/
def getAt : MCTSTree → List Nat → Option MCTSTree
  | t, [] => some t
  | .node _ cs, i :: rest =>
    match cs.get? i with
    | some c => getAt c rest
    | none => none

/-- Replace the subtree at a path of child indices by the image under `f`. -/
def modifyAt : MCTSTree → List Nat → (MCTSTree → MCTSTree) → MCTSTree
  | t, [], f => f t
  | .node d cs, i :: rest, f =>
    match cs.get? i with
    | some c => .node d (cs.set i (modifyAt c rest f))
    | none => .node d cs

/-- Result `1 - (1 - ... (1 - r))` of flipping a backpropagated value once
per level. -/
def flipTimes : Nat → Rat → Rat
  | 0, r => r
  | n + 1, r => 1 - flipTimes n r

/-- `MCTSEngine.backpropagateResult`, i.e. `MCTSNode.backpropagate` started
at the node addressed by `path`, realized on the explicit tree: every node on
the path gains one visit, and a node `h` levels above the target accumulates
the result flipped `h` times. -/
def treeBackprop : MCTSTree → List Nat → Rat → MCTSTree
  | .node d cs, [], r =>
    .node { d with visits := d.visits + 1, wins := d.wins + r } cs
  | .node d cs, i :: rest, r =>
    let d' := { d with
      visits := d.visits + 1
      wins := d.wins + flipTimes (rest.length + 1) r }
    match cs.get? i with
    | some c => .node d' (cs.set i (treeBackprop c rest r))
    | none => .node d' cs

/-- `MCTSEngine.selectUntriedMove` (both configured policies currently pick a
uniformly random index, as in the source). -/
def selectUntriedMove (cfg : MCTSConfig) (rand : Nat → Rat) (k : Nat)
    (d : NodeData) : Nat :=
  if cfg.simulationPolicy = .biased then
    randIdx (rand k) d.untriedMoves.length
  else
    randIdx (rand k) d.untriedMoves.length

/-- Result of `MCTSEngine.expandNode` on the explicit tree: the updated
tree, the path and payload of the node simulation will run from, and the
advanced random counter. -/
structure ExpandResult where
  tree : MCTSTree
  path : List Nat
  nodeData : NodeData
  k : Nat

/-- `MCTSEngine.expandNode` at the node addressed by `path`.  The
`simulationClone` before `applyMove` copies every component `applyMove`
touches, so in the pure model it is the state itself. -/
def expandNode (cfg : MCTSConfig) (rand : Nat → Rat) (k : Nat)
    (t : MCTSTree) (path : List Nat) : ExpandResult :=
  match getAt t path with
  | none => ⟨t, path, t.data, k⟩
  | some (.node d cs) =>
    if isTerminal d then
      ⟨t, path, d, k⟩
    else
      let d1 := if d.untriedMoves.isEmpty && cs.isEmpty then
        prepareNodeForExpansion d else d
      if d1.untriedMoves.isEmpty then
        let d2 := { d1 with isFullyExpanded := true }
        ⟨modifyAt t path (fun n => .node d2 n.children), path, d2, k⟩
      else
        let moveIndex := selectUntriedMove cfg rand k d1
        let moveToTry := d1.untriedMoves.getD moveIndex defaultMove
        let d2 := { d1 with untriedMoves := d1.untriedMoves.eraseIdx moveIndex }
        let appliedGameState := applyMove d2.gameState moveToTry
        let childData := prepareNodeForExpansion (mkNode appliedGameState (some moveToTry))
        ⟨modifyAt t path (fun n => .node d2 (n.children ++ [.node childData []])),
          path ++ [cs.length], childData, k + 1⟩

/-- Degree count of the biased rollout heuristic: unremoved edges incident to
the destination. -/
def edgeDegree (gameState : GameState)
    (destination : TriangularCoordinate) : Nat :=
  gameState.network.edges.countP (fun kv =>
    !kv.2.removed &&
      (decide (kv.2.efrom = destination) || decide (kv.2.eto = destination)))

/-- `MCTSEngine.selectBiasedMove`: greedy scan over the destinations scoring
`degree + Math.random() * 0.5`, keeping the first strict improvement over
`-1`.  The source's `bestMove || selectRandomMove(...)` fallback fires only
when the moves list is empty, where the source's mutual recursion would not
terminate; the model inlines the uniform-random pick there. -/
def selectBiasedMove (rand : Nat → Rat) (k : Nat) (validMoves : ValidMoves)
    (player : Player) (gameState : GameState) : Move × Nat :=
  let scan := validMoves.moves.foldl
    (fun (acc : Nat × Rat × Option Move) destination =>
      let degree := edgeDegree gameState destination
      let score := (degree : Rat) + rand acc.1 * (1 / 2)
      if score > acc.2.1 then
        (acc.1 + 1, score,
          some ⟨.move, player.id, some player.position, some destination,
            none, 0⟩)
      else
        (acc.1 + 1, acc.2.1, acc.2.2))
    (k, -1, none)
  match scan.2.2 with
  | some bestMove => (bestMove, scan.1)
  | none =>
    (⟨.move, player.id, some player.position,
        some (validMoves.moves.getD
          (randIdx (rand scan.1) validMoves.moves.length) defaultCoord),
        none, 0⟩,
      scan.1 + 1)

/-- `MCTSEngine.selectRandomMove`. -/
def selectRandomMove (cfg : MCTSConfig) (rand : Nat → Rat) (k : Nat)
    (validMoves : ValidMoves) (player : Player) (gameState : GameState) :
    Move × Nat :=
  if cfg.simulationPolicy = .biased then
    selectBiasedMove rand k validMoves player gameState
  else
    (⟨.move, player.id, some player.position,
        some (validMoves.moves.getD
          (randIdx (rand k) validMoves.moves.length) defaultCoord),
        none, 0⟩,
      k + 1)

/-- `MCTSEngine.evaluateTerminalNode`. -/
def evaluateTerminalNode (d : NodeData) : Rat :=
  match d.gameState.winner with
  | none => 1 / 2
  | some winner =>
    if d.gameState.phase ≠ .finished then
      1 / 2
    else
      match (playersList d.gameState.players).find?
          (fun p => p.id ≠ d.playerToMove.id) with
      | some opponent => if opponent.id = winner then 0 else 1
      | none => 1

/-- `MCTSEngine.evaluatePosition`. -/
def evaluatePosition (gameState : GameState) (originalPlayer : Player) :
    Rat :=
  match gameState.phase with
  | .finished =>
    match gameState.winner with
    | none => 1 / 2
    | some winner => if winner = originalPlayer.id then 1 else 0
  | .playing =>
    let player1 := gameState.players.1
    let player2 := gameState.players.2
    let player1Moves := (getValidMoves gameState player1).moves.length
    let player2Moves := (getValidMoves gameState player2).moves.length
    if player1Moves = 0 ∧ player2Moves = 0 then
      1 / 2
    else if player1Moves = 0 then
      if originalPlayer.id = player1.id then 0 else 1
    else if player2Moves = 0 then
      if originalPlayer.id = player2.id then 0 else 1
    else
      ((if originalPlayer.id = player1.id then player1Moves
        else player2Moves : Nat) : Rat) /
        ((player1Moves + player2Moves : Nat) : Rat)

/-- The rollout loop of `MCTSEngine.simulateGame`, with the remaining depth
budget `maxSimulationDepth - depth` as fuel.  A player to move whose `moves`
list is empty is recorded as the loser — the `cuts` list is not consulted.
The `lightweightClone` copies, in the pure model, are the states
themselves. -/
def simPlayout (cfg : MCTSConfig) (rand : Nat → Rat) :
    Nat → GameState → Nat → GameState × Nat
  | 0, simState, k => (simState, k)
  | fuel + 1, simState, k =>
    if simState.phase = .playing then
      let currentPlayer := playersGet simState.players simState.currentPlayerIndex
      let validMoves := getValidMoves simState currentPlayer
      if validMoves.moves.isEmpty then
        ({ simState with
            phase := .finished
            winner := some (playersGet simState.players
              (1 - simState.currentPlayerIndex)).id },
          k)
      else
        let picked := selectRandomMove cfg rand k validMoves currentPlayer simState
        simPlayout cfg rand fuel (applyMove simState picked.1) picked.2
    else
      (simState, k)

/-- `MCTSEngine.simulateGame`. -/
def simulateGame (cfg : MCTSConfig) (rand : Nat → Rat) (k : Nat)
    (d : NodeData) : Rat × Nat :=
  if isTerminal d then
    (evaluateTerminalNode d, k)
  else
    let run := simPlayout cfg rand cfg.maxSimulationDepth d.gameState k
    (evaluatePosition run.1 d.playerToMove, run.2)

/-- `MCTSEngine.runSingleIteration`: selection, expansion, simulation,
backpropagation. -/
noncomputable def runSingleIteration (cfg : MCTSConfig) (rand : Nat → Rat)
    (t : MCTSTree) (k : Nat) : MCTSTree × Nat :=
  let path := selectPath cfg.explorationConstant (cfg.maxSimulations + 1) t
  let er := expandNode cfg rand k t path
  let sim := simulateGame cfg rand er.k er.nodeData
  (treeBackprop er.tree er.path sim.1, sim.2)

/-- The iteration loop of `MCTSEngine.search`. -/
noncomputable def searchLoop (cfg : MCTSConfig) (rand : Nat → Rat) :
    Nat → MCTSTree × Nat → MCTSTree × Nat
  | 0, acc => acc
  | n + 1, acc => searchLoop cfg rand n (runSingleIteration cfg rand acc.1 acc.2)

/-- `MCTSNode.getMostVisitedChild` (`none` models the throw on an empty
child list, which callers guard against). -/
def getMostVisitedChild (children : List MCTSTree) : Option MCTSTree :=
  match children with
  | [] => none
  | c0 :: rest =>
    some (rest.foldl
      (fun best c => if c.data.visits > best.data.visits then c else best) c0)

/-- `MCTSNode.getBestWinRateChild`. -/
def getBestWinRateChild (children : List MCTSTree) : Option MCTSTree :=
  match children with
  | [] => none
  | c0 :: rest =>
    (rest.foldl
      (fun (acc : MCTSTree × Rat) c =>
        let winRate := if c.data.visits > 0 then
          c.data.wins / (c.data.visits : Rat) else 0
        if winRate > acc.2 then (c, winRate) else acc)
      (c0, if c0.data.visits > 0 then
        c0.data.wins / (c0.data.visits : Rat) else 0)).1 |> some

/-- `MCTSEngine.selectFinalMove`: error when the root has no children
(modelling the thrown `Error`), otherwise the move of the child chosen by the
configured policy. -/
def selectFinalMove (cfg : MCTSConfig) (t : MCTSTree) : Except String Move :=
  if t.children.isEmpty then
    .error "No moves available - MCTS search failed"
  else
    let selectedChild :=
      match cfg.finalMoveSelection with
      | .most_visits => getMostVisitedChild t.children
      | .best_winrate => getBestWinRateChild t.children
      | .robust => getMostVisitedChild t.children
    match selectedChild with
    | some child =>
      match child.data.move with
      | some m => .ok m
      | none => .error "Selected child has no associated move"
    | none => .error "No moves available - MCTS search failed"

/-- `MCTSEngine.search`: build a fresh root from the game state (the
`enableTreeReuse` branch of `initializeRoot` is an unimplemented TODO and
always falls through to a fresh root), run the iteration loop while both the
simulation budget and the time budget (`timeFuel`) allow, then pick the
final move.  The `player` argument is recorded only for logging in the
source and does not influence the computation. -/
noncomputable def search (cfg : MCTSConfig) (gameState : GameState)
    (player : Player) (rand : Nat → Rat) (timeFuel : Nat) :
    Except String Move :=
  let root : MCTSTree := .node (prepareNodeForExpansion (mkNode gameState none)) []
  let iterations := min cfg.maxSimulations timeFuel
  let run := searchLoop cfg rand iterations (root, 0)
  selectFinalMove cfg run.1

/-! ## Bot adapter: `client/src/ai/bots/mcts/MCTSBot.ts` -/

/-- `MCTSBot.getEmergencyMove`: the first entry of the `moves` list of
`getValidMoves` as a `'move'` action; the thrown
`Error('...No valid moves available - player is isolated')` when that list is
empty is modelled as an error result — the `cuts` list is never
consulted. -/
def getEmergencyMove (gameState : GameState) (player : Player) :
    Except String Move :=
  let validMoves := getValidMoves gameState player
  match validMoves.moves with
  | destination :: _ =>
    .ok ⟨.move, player.id, some player.position, some destination, none, 0⟩
  | [] => .error "No valid moves available - player is isolated"

/-- `MCTSBot.getBestMove`: run the search and, if it throws, substitute the
emergency move; an error thrown by `getEmergencyMove` itself propagates to
the caller (the UX thinking delay has no effect on the returned move). -/
noncomputable def getBestMove (cfg : MCTSConfig) (gameState : GameState)
    (player : Player) (rand : Nat → Rat) (timeFuel : Nat) :
    Except String Move :=
  match search cfg gameState player rand timeFuel with
  | .ok bestMove => .ok bestMove
  | .error _ => getEmergencyMove gameState player

end HexPathGame

namespace HexPathGame

/-! ## Claim C5: backpropagation statistics -/

lemma backpropagate_length (r : Rat) (chain : List NodeStats) :
    (backpropagate r chain).length = chain.length := by
  induction chain generalizing r with
  | nil => rfl
  | cons hd tl ih => simp [backpropagate, ih]

lemma backpropagate_get? (r : Rat) (chain : List NodeStats) :
    ∀ (k : Nat) (st : NodeStats), chain.get? k = some st →
      (backpropagate r chain).get? k =
        some ⟨st.visits + 1, st.wins + (if k % 2 = 0 then r else 1 - r)⟩ := by
  induction chain generalizing r with
  | nil => intro k st h; simp at h
  | cons hd tl ih =>
    intro k st h
    cases k with
    | zero =>
      have hst : hd = st := by simpa using h
      subst hst
      simp [backpropagate]
    | succ k =>
      have h' : tl.get? k = some st := by simpa using h
      have := ih (1 - r) k st h'
      show (backpropagate (1 - r) tl).get? k = _
      rw [this]
      by_cases hk : k % 2 = 0
      · rw [if_pos hk, if_neg (by omega)]
      · rw [if_neg hk, if_pos (by omega)]
        have : (1 : Rat) - (1 - r) = r := by ring
        rw [this]

/-- Claim C5: `MCTSNode.backpropagate` with a result `r ∈ [0, 1]`, applied at
a node whose ancestor chain is `chain` (node first, root last), increments
`visits` by exactly 1 at the node and at every ancestor, and adds to `wins`
the value `r` at even distances from the starting node and `1 - r` at odd
distances. -/
theorem backpropagate_visits_and_perspective_flip (r : Rat)
    (h0 : 0 ≤ r) (h1 : r ≤ 1) (chain : List NodeStats) :
    (backpropagate r chain).length = chain.length ∧
    ∀ (k : Nat) (st : NodeStats), chain.get? k = some st →
      (backpropagate r chain).get? k =
        some ⟨st.visits + 1, st.wins + (if k % 2 = 0 then r else 1 - r)⟩ :=
  ⟨backpropagate_length r chain, backpropagate_get? r chain⟩

/-- Witness for claim C5: one backpropagation of `r = 1/2` through a concrete
three-node chain updates the node at odd distance 1 with `1 - r`. -/
theorem backpropagate_visits_and_perspective_flip_witness :
    (backpropagate (1 / 2) [⟨0, 0⟩, ⟨2, 1⟩, ⟨5, 3 / 2⟩]).length = 3 ∧
    (backpropagate (1 / 2) [⟨0, 0⟩, ⟨2, 1⟩, ⟨5, 3 / 2⟩]).get? 1 =
      some ⟨3, 3 / 2⟩ := by
  have h := backpropagate_visits_and_perspective_flip (1 / 2)
    (by norm_num) (by norm_num) [⟨0, 0⟩, ⟨2, 1⟩, ⟨5, 3 / 2⟩]
  refine ⟨h.1, ?_⟩
  have h2 := h.2 1 ⟨2, 1⟩ (by decide)
  rw [h2]
  norm_num

end HexPathGame

namespace HexPathGame

/-! ## Claim C1: UCB1 selection perspective -/

/-- Game state used only to populate the node payloads of the concrete
selection scenario; the selection functions read nothing but the
statistics. -/
def dummyState : GameState :=
  createGame "selection" ⟨"p1", "P1", "red"⟩ ⟨"p2", "P2", "blue"⟩ ⟨1, none⟩

/-- Child payload with one visit and the given win total. -/
def failingChildData (w : Rat) : NodeData :=
  { move := none
    visits := 1
    wins := w
    isFullyExpanded := false
    untriedMoves := []
    gameState := dummyState
    playerToMove := ⟨"p1", "P1", "red", ⟨0, 0⟩⟩ }

/-- A parent with 2 visits whose first child was always won by the opponent
(`wins/visits = 1`) and whose second child was always lost by the opponent
(`wins/visits = 0`).  Both children have equal visit counts, so the
exploration terms coincide and selection is decided by the exploitation
term alone. -/
def failingChildren : List MCTSTree :=
  [.node (failingChildData 1) [], .node (failingChildData 0) []]

lemma selection_raw_picks_zero :
    selectBestChildIdx (Real.sqrt 2) 2 failingChildren = 0 := by
  have hnot : ¬ (getUCB1Value (Real.sqrt 2) 2 1 0 >
      getUCB1Value (Real.sqrt 2) 2 1 1) := by
    unfold getUCB1Value
    rw [if_neg (by norm_num), if_neg (by norm_num)]
    rw [gt_iff_lt, EReal.coe_lt_coe_iff]
    intro hcon
    push_cast at hcon
    rw [div_one, div_one] at hcon
    linarith
  unfold selectBestChildIdx failingChildren
  simp only [List.enum, List.enumFrom, List.foldl, MCTSTree.data,
    failingChildData]
  rw [if_neg hnot]

lemma inverted_value_flips_order :
    getInvertedUCB1Value (Real.sqrt 2) 2 1 1 <
      getInvertedUCB1Value (Real.sqrt 2) 2 1 0 := by
  unfold getInvertedUCB1Value
  rw [if_neg (by norm_num), if_neg (by norm_num)]
  rw [EReal.coe_lt_coe_iff]
  push_cast
  rw [div_one, div_one]
  linarith

lemma selection_restored_picks_one :
    selectBestChildIdxRestored (Real.sqrt 2) 2 failingChildren = 1 := by
  have hlt : getInvertedUCB1Value (Real.sqrt 2) 2 1 0 >
      getInvertedUCB1Value (Real.sqrt 2) 2 1 1 := inverted_value_flips_order
  unfold selectBestChildIdxRestored failingChildren
  simp only [List.enum, List.enumFrom, List.foldl, MCTSTree.data,
    failingChildData]
  rw [if_pos hlt]

/-- Claim C1 (code bug): the active `MCTSNode.selectBestChild`, as used by
`MCTSEngine.selectNode`, ranks children by the raw exploitation ratio
`wins/visits`: on the two-child statistics above (equal visits, so equal
exploration terms) it picks child 0 — the move after which the opponent has
win rate 1 — even though child 0 does not maximize the two-player-corrected
score `(1 − wins/visits) + C·√(ln(parent)/visits)`, whose maximizer is
child 1, the child picked by the RESTORED `selectBestChild` variant via
`getInvertedUCB1Value`. -/
theorem selection_uses_raw_ratio_not_inverted :
    selectBestChildIdx (Real.sqrt 2) 2 failingChildren = 0 ∧
    getInvertedUCB1Value (Real.sqrt 2) 2 1 1 <
      getInvertedUCB1Value (Real.sqrt 2) 2 1 0 ∧
    selectBestChildIdxRestored (Real.sqrt 2) 2 failingChildren = 1 :=
  ⟨selection_raw_picks_zero, inverted_value_flips_order,
    selection_restored_picks_one⟩

end HexPathGame

namespace HexPathGame

/-! ## Claims C2 and C3: moves-only checks in playout and emergency path -/

-- Equality of search results is decidable (moves carry only discrete data).
deriving instance DecidableEq for Except

/-- A radius-1 position in which the player to move ("p1", at the center,
all six incident edges removed) has no legal moves but still has legal cuts
on the outer ring: by the rules engine (`checkGameEnd`) the game is not
over. -/
def isolatedCutState : GameState :=
  let base := createGame "isolated" ⟨"p1", "P1", "red"⟩ ⟨"p2", "P2", "blue"⟩
    ⟨1, some (⟨0, 0⟩, ⟨1, 0⟩)⟩
  { base with
      network :=
        { base.network with
            edges := base.network.edges.map (fun kv =>
              if kv.2.efrom = ⟨0, 0⟩ ∨ kv.2.eto = ⟨0, 0⟩ then
                (kv.1, { kv.2 with removed := true })
              else kv) } }

/-- A small engine configuration used to evaluate the failing runs (random
policy, most-visits final selection, one simulation, rollout depth 1). -/
noncomputable def probeConfig : MCTSConfig :=
  { maxSimulations := 1
    explorationConstant := 1
    maxThinkingTimeMs := 1000
    maxTreeDepth := 15
    simulationPolicy := .random
    maxSimulationDepth := 1
    selectionPolicy := .ucb1
    expansionPolicy := .single
    finalMoveSelection := .most_visits
    enableTreeReuse := false
    enableParallelization := false
    enableDebugLogging := false
    logInterval := 50 }

/-- Random stream drawing 0 forever. -/
def zeroRand : Nat → Rat := fun _ => 0

/-- Claim C3 (code bug): in `isolatedCutState` the player to move has no
moves but a nonempty cuts list, so `checkGameEnd` reports the game as not
over; yet one step of the `simulateGame` playout loop records the position
as finished with that player as the isolated loser (winner "p2"), and
`simulateGame` accordingly scores the position 0 for them — the playout
consults only the `moves` list, never the `cuts` list. -/
theorem simulateGame_isolates_player_with_cuts :
    (getValidMoves isolatedCutState
      (playersGet isolatedCutState.players
        isolatedCutState.currentPlayerIndex)).moves = [] ∧
    (getValidMoves isolatedCutState
      (playersGet isolatedCutState.players
        isolatedCutState.currentPlayerIndex)).cuts ≠ [] ∧
    checkGameEnd isolatedCutState = none ∧
    (simPlayout probeConfig zeroRand 1 isolatedCutState 0).1.phase =
      .finished ∧
    (simPlayout probeConfig zeroRand 1 isolatedCutState 0).1.winner =
      some "p2" ∧
    (simulateGame probeConfig zeroRand 0
      (mkNode isolatedCutState none)).1 = 0 := by
  refine ⟨by decide, by decide, by decide, by decide, by decide, ?_⟩
  norm_num [simulateGame, simPlayout, evaluatePosition, mkNode]
  decide

/-- Claim C2 (code bug): in `isolatedCutState` the player to move still has
a legal cut (`checkGameEnd` reports the game as not over), but
`MCTSBot.getBestMove` raises: the search fails (the root acquires no
children because only `moves` are converted to untried moves) and the
emergency fallback, which also consults only the `moves` list, throws
`'No valid moves available - player is isolated'` instead of returning the
available legal cut. -/
theorem getBestMove_raises_despite_legal_cut :
    (getValidMoves isolatedCutState
      (playersGet isolatedCutState.players 0)).cuts ≠ [] ∧
    checkGameEnd isolatedCutState = none ∧
    getEmergencyMove isolatedCutState
      (playersGet isolatedCutState.players 0) =
      .error "No valid moves available - player is isolated" ∧
    getBestMove probeConfig isolatedCutState
      (playersGet isolatedCutState.players 0) zeroRand 1 =
      .error "No valid moves available - player is isolated" := by
  refine ⟨by decide, by decide, by decide, by decide⟩

end HexPathGame

namespace HexPathGame

/-! ## Claims C9 and C10: shape of the moves the search can return -/

/-- Invariant on the root of the search tree: its player to move has id
`pid`, every untried move is a `'move'` action by `pid`, and every child's
originating move is a `'move'` action by `pid`. -/
def RootInv (pid : String) : MCTSTree → Prop
  | .node d cs =>
    d.playerToMove.id = pid ∧
    (∀ mv ∈ d.untriedMoves, mv.type = .move ∧ mv.player = pid) ∧
    (∀ c ∈ cs, ∀ mv, (MCTSTree.data c).move = some mv →
      mv.type = .move ∧ mv.player = pid)

lemma prepareNodeForExpansion_move (d : NodeData) :
    (prepareNodeForExpansion d).move = d.move := by
  unfold prepareNodeForExpansion
  split <;> rfl

lemma prepareNodeForExpansion_playerToMove (d : NodeData) :
    (prepareNodeForExpansion d).playerToMove = d.playerToMove := by
  unfold prepareNodeForExpansion
  split <;> rfl

lemma prepareNodeForExpansion_untried (d : NodeData) :
    ∀ mv ∈ (prepareNodeForExpansion d).untriedMoves,
      mv.type = .move ∧ mv.player = d.playerToMove.id := by
  unfold prepareNodeForExpansion
  split
  · intro mv hmv
    simp at hmv
  · intro mv hmv
    rw [List.mem_map] at hmv
    obtain ⟨dest, _, rfl⟩ := hmv
    exact ⟨rfl, rfl⟩

lemma treeBackprop_data (t : MCTSTree) (p : List Nat) (r : Rat) :
    (treeBackprop t p r).data.move = t.data.move ∧
    (treeBackprop t p r).data.untriedMoves = t.data.untriedMoves ∧
    (treeBackprop t p r).data.playerToMove = t.data.playerToMove := by
  cases t with
  | node d cs =>
    cases p with
    | nil => exact ⟨rfl, rfl, rfl⟩
    | cons i rest =>
      cases hcs : cs.get? i with
      | some c =>
        have hcs2 : cs[i]? = some c := by simpa using hcs
        simp [treeBackprop, hcs2, MCTSTree.data]
      | none =>
        have hcs2 : cs[i]? = none := by simpa using hcs
        simp [treeBackprop, hcs2, MCTSTree.data]

lemma rootInv_treeBackprop {pid : String} {t : MCTSTree}
    (h : RootInv pid t) (p : List Nat) (r : Rat) :
    RootInv pid (treeBackprop t p r) := by
  cases t with
  | node d cs =>
    obtain ⟨h1, h2, h3⟩ := h
    cases p with
    | nil => exact ⟨h1, h2, h3⟩
    | cons i rest =>
      cases hcs : cs.get? i with
      | none =>
        simp only [treeBackprop, hcs]
        exact ⟨h1, h2, h3⟩
      | some c =>
        simp only [treeBackprop, hcs]
        refine ⟨h1, h2, ?_⟩
        intro c' hc' mv hmv
        rcases List.mem_or_eq_of_mem_set hc' with hmem | rfl
        · exact h3 c' hmem mv hmv
        · rw [(treeBackprop_data c rest r).1] at hmv
          exact h3 c (List.get?_mem hcs) mv hmv

lemma getAt_cons {d : NodeData} {cs : List MCTSTree} {i : Nat}
    {c : MCTSTree} (hcs : cs.get? i = some c) (rest : List Nat) :
    getAt (MCTSTree.node d cs) (i :: rest) = getAt c rest := by
  have hcs2 : cs[i]? = some c := by simpa using hcs
  simp [getAt, hcs2]

lemma modifyAt_data_move (t : MCTSTree) (path : List Nat)
    (f : MCTSTree → MCTSTree)
    (hf : ∀ sub, getAt t path = some sub →
      ((f sub).data).move = (sub.data).move) :
    ((modifyAt t path f).data).move = (t.data).move := by
  cases t with
  | node d cs =>
    cases path with
    | nil => exact hf _ rfl
    | cons i rest =>
      cases hcs : cs.get? i with
      | some c =>
        have hcs2 : cs[i]? = some c := by simpa using hcs
        simp [modifyAt, hcs2, MCTSTree.data]
      | none =>
        have hcs2 : cs[i]? = none := by simpa using hcs
        simp [modifyAt, hcs2, MCTSTree.data]

lemma rootInv_modifyAt {pid : String} (t : MCTSTree) (path : List Nat)
    (f : MCTSTree → MCTSTree) (h : RootInv pid t)
    (hroot : path = [] → RootInv pid (f t))
    (hfmove : ∀ sub, getAt t path = some sub →
      ((f sub).data).move = (sub.data).move) :
    RootInv pid (modifyAt t path f) := by
  cases t with
  | node d cs =>
    cases path with
    | nil => exact hroot rfl
    | cons i rest =>
      obtain ⟨h1, h2, h3⟩ := h
      cases hcs : cs.get? i with
      | none =>
        simp only [modifyAt, hcs]
        exact ⟨h1, h2, h3⟩
      | some c =>
        simp only [modifyAt, hcs]
        refine ⟨h1, h2, ?_⟩
        intro c' hc' mv hmv
        rcases List.mem_or_eq_of_mem_set hc' with hmem | rfl
        · exact h3 c' hmem mv hmv
        · rw [modifyAt_data_move c rest f
            (fun sub hsub => hfmove sub (by rw [getAt_cons hcs]; exact hsub))] at hmv
          exact h3 c (List.get?_mem hcs) mv hmv

lemma randIdx_lt {q : Rat} {len : Nat} (h : len ≠ 0) : randIdx q len < len :=
  Nat.mod_lt _ (Nat.pos_of_ne_zero h)

lemma rootInv_expandNode {pid : String} (cfg : MCTSConfig)
    (rand : Nat → Rat) (k : Nat) {t : MCTSTree} (h : RootInv pid t)
    (path : List Nat) :
    RootInv pid (expandNode cfg rand k t path).tree := by
  unfold expandNode
  cases hg : getAt t path with
  | none => exact h
  | some sub =>
    cases sub with
    | node d cs =>
      dsimp only
      by_cases hterm : isTerminal d = true
      · rw [if_pos hterm]
        exact h
      · rw [if_neg hterm]
        set d1 := if d.untriedMoves.isEmpty && cs.isEmpty then
          prepareNodeForExpansion d else d with hd1
        have hd1p : d1.playerToMove = d.playerToMove := by
          rw [hd1]
          split
          · exact prepareNodeForExpansion_playerToMove d
          · rfl
        have hd1m : d1.move = d.move := by
          rw [hd1]
          split
          · exact prepareNodeForExpansion_move d
          · rfl
        by_cases hempty : d1.untriedMoves.isEmpty = true
        · rw [if_pos hempty]
          refine rootInv_modifyAt t path _ h (fun hpath => ?_) ?_
          · -- root modification: t is the node at the empty path
            rw [hpath] at hg
            have ht : t = MCTSTree.node d cs := by
              simpa [getAt] using hg
            subst ht
            obtain ⟨h1, h2, h3⟩ := h
            refine ⟨by rw [hd1p]; exact h1, ?_, h3⟩
            intro mv hmv
            rw [List.isEmpty_iff] at hempty
            rw [hempty] at hmv
            simp at hmv
          · intro sub hsub
            rw [hg] at hsub
            cases hsub
            exact hd1m
        · rw [if_neg hempty]
          have hud : ∀ mv ∈ d1.untriedMoves, mv.type = .move ∧
              mv.player = d.playerToMove.id ∨ mv ∈ d.untriedMoves := by
            intro mv hmv
            rw [hd1] at hmv
            by_cases hcond : (d.untriedMoves.isEmpty && cs.isEmpty) = true
            · rw [if_pos hcond] at hmv
              exact .inl (prepareNodeForExpansion_untried d mv hmv)
            · rw [if_neg hcond] at hmv
              exact .inr hmv
          refine rootInv_modifyAt t path _ h (fun hpath => ?_) ?_
          · rw [hpath] at hg
            have ht : t = MCTSTree.node d cs := by
              simpa [getAt] using hg
            subst ht
            obtain ⟨h1, h2, h3⟩ := h
            have hP : ∀ mv ∈ d1.untriedMoves,
                mv.type = .move ∧ mv.player = pid := by
              intro mv hmv
              rcases hud mv hmv with ⟨ht', hp'⟩ | hmem
              · exact ⟨ht', by rw [hp', h1]⟩
              · exact h2 mv hmem
            have hlen : d1.untriedMoves ≠ [] := by
              intro hnil
              rw [List.isEmpty_iff] at hempty
              exact hempty hnil
            have hidx : selectUntriedMove cfg rand k d1 <
                d1.untriedMoves.length := by
              unfold selectUntriedMove
              have hlen' : d1.untriedMoves.length ≠ 0 := by
                intro h0
                exact hlen (List.length_eq_zero.mp h0)
              split <;> exact randIdx_lt hlen'
            have hmemTry : d1.untriedMoves.getD
                (selectUntriedMove cfg rand k d1) defaultMove ∈
                d1.untriedMoves := by
              rw [List.getD_eq_get _ _ hidx]
              exact List.get_mem _ _ _
            refine ⟨by rw [hd1p]; exact h1, ?_, ?_⟩
            · intro mv hmv
              have hsub := List.eraseIdx_sublist d1.untriedMoves
                (selectUntriedMove cfg rand k d1)
              exact hP mv (hsub.subset hmv)
            · intro c' hc' mv hmv
              rcases List.mem_append.mp hc' with hmem | hnew
              · exact h3 c' hmem mv hmv
              · have hc'' : c' = MCTSTree.node
                    (prepareNodeForExpansion (mkNode
                      (applyMove d1.gameState (d1.untriedMoves.getD
                        (selectUntriedMove cfg rand k d1) defaultMove))
                      (some (d1.untriedMoves.getD
                        (selectUntriedMove cfg rand k d1) defaultMove)))) [] := by
                  simpa using hnew
                subst hc''
                rw [MCTSTree.data] at hmv
                rw [prepareNodeForExpansion_move] at hmv
                have hmk : (mkNode (applyMove d1.gameState
                    (d1.untriedMoves.getD
                      (selectUntriedMove cfg rand k d1) defaultMove))
                    (some (d1.untriedMoves.getD
                      (selectUntriedMove cfg rand k d1) defaultMove))).move =
                    some (d1.untriedMoves.getD
                      (selectUntriedMove cfg rand k d1) defaultMove) := rfl
                rw [hmk] at hmv
                cases hmv
                exact hP _ hmemTry
          · intro sub hsub
            rw [hg] at hsub
            cases hsub
            exact hd1m

end HexPathGame

namespace HexPathGame

lemma rootInv_runSingleIteration {pid : String} (cfg : MCTSConfig)
    (rand : Nat → Rat) {t : MCTSTree} (h : RootInv pid t) (k : Nat) :
    RootInv pid (runSingleIteration cfg rand t k).1 := by
  unfold runSingleIteration
  exact rootInv_treeBackprop (rootInv_expandNode cfg rand k h _) _ _

lemma rootInv_searchLoop {pid : String} (cfg : MCTSConfig)
    (rand : Nat → Rat) (n : Nat) (acc : MCTSTree × Nat)
    (h : RootInv pid acc.1) :
    RootInv pid (searchLoop cfg rand n acc).1 := by
  induction n generalizing acc with
  | zero => exact h
  | succ n ih =>
    exact ih _ (rootInv_runSingleIteration cfg rand h acc.2)

lemma foldl_choose_mem {α : Type} (g : α → α → α)
    (hg : ∀ b c, g b c = b ∨ g b c = c) :
    ∀ (l : List α) (a : α), l.foldl g a ∈ a :: l := by
  intro l
  induction l with
  | nil => intro a; simp
  | cons c t ih =>
    intro a
    rw [List.foldl_cons]
    rcases hg a c with he | he
    · rw [he]
      rcases List.mem_cons.mp (ih a) with hcase | hcase
      · rw [hcase]; exact List.mem_cons_self _ _
      · exact List.mem_cons_of_mem _ (List.mem_cons_of_mem _ hcase)
    · rw [he]
      exact List.mem_cons_of_mem _ (ih c)

lemma foldl_choosePair_mem {α β : Type} (g : α × β → α → α × β)
    (hg : ∀ acc c, (g acc c).1 = acc.1 ∨ (g acc c).1 = c) :
    ∀ (l : List α) (acc : α × β), (l.foldl g acc).1 ∈ acc.1 :: l := by
  intro l
  induction l with
  | nil => intro acc; simp
  | cons c t ih =>
    intro acc
    rw [List.foldl_cons]
    rcases hg acc c with he | he
    · rcases List.mem_cons.mp (ih (g acc c)) with hcase | hcase
      · rw [hcase, he]; exact List.mem_cons_self _ _
      · exact List.mem_cons_of_mem _ (List.mem_cons_of_mem _ hcase)
    · rcases List.mem_cons.mp (ih (g acc c)) with hcase | hcase
      · rw [hcase, he]
        exact List.mem_cons_of_mem _ (List.mem_cons_self _ _)
      · exact List.mem_cons_of_mem _ (List.mem_cons_of_mem _ hcase)

lemma getMostVisitedChild_mem {cs : List MCTSTree} {c : MCTSTree}
    (h : getMostVisitedChild cs = some c) : c ∈ cs := by
  unfold getMostVisitedChild at h
  cases cs with
  | nil => exact absurd h (by simp)
  | cons c0 rest =>
    have hc : c = rest.foldl
        (fun best c => if c.data.visits > best.data.visits then c else best)
        c0 := by
      have := h
      simp only [Option.some.injEq] at this
      exact this.symm
    rw [hc]
    exact foldl_choose_mem _
      (fun b c => by by_cases hbc : c.data.visits > b.data.visits <;>
        simp [hbc]) rest c0

lemma getBestWinRateChild_mem {cs : List MCTSTree} {c : MCTSTree}
    (h : getBestWinRateChild cs = some c) : c ∈ cs := by
  unfold getBestWinRateChild at h
  cases cs with
  | nil => exact absurd h (by simp)
  | cons c0 rest =>
    simp only [Option.some.injEq] at h
    rw [← h]
    exact foldl_choosePair_mem _
      (fun acc c => by
        by_cases hbc : (if c.data.visits > 0 then
            c.data.wins / (c.data.visits : Rat) else 0) > acc.2 <;>
          simp [hbc]) rest _

lemma selectFinalMove_child {cfg : MCTSConfig} {t : MCTSTree} {m : Move}
    (h : selectFinalMove cfg t = .ok m) :
    ∃ c ∈ t.children, (MCTSTree.data c).move = some m := by
  unfold selectFinalMove at h
  by_cases hemp : t.children.isEmpty = true
  · rw [if_pos hemp] at h
    exact absurd h (by simp)
  · rw [if_neg hemp] at h
    set sel := match cfg.finalMoveSelection with
      | .most_visits => getMostVisitedChild t.children
      | .best_winrate => getBestWinRateChild t.children
      | .robust => getMostVisitedChild t.children with hsel
    have hmem : ∀ c, sel = some c → c ∈ t.children := by
      intro c hc
      rw [hsel] at hc
      cases hfs : cfg.finalMoveSelection <;> rw [hfs] at hc
      · exact getMostVisitedChild_mem hc
      · exact getBestWinRateChild_mem hc
      · exact getMostVisitedChild_mem hc
    cases hs : sel with
    | none =>
      rw [hs] at h
      exact absurd h (by simp)
    | some child =>
      simp only [hs] at h
      cases hcm : (MCTSTree.data child).move with
      | none =>
        simp only [hcm] at h
        exact absurd h (by simp)
      | some m' =>
        simp only [hcm, Except.ok.injEq] at h
        refine ⟨child, hmem child hs, ?_⟩
        rw [hcm, h]

lemma RootInv.children_prop {pid : String} {t : MCTSTree}
    (h : RootInv pid t) :
    ∀ c ∈ t.children, ∀ mv, (MCTSTree.data c).move = some mv →
      mv.type = .move ∧ mv.player = pid := by
  cases t with
  | node d cs => exact h.2.2

lemma rootInv_root (gameState : GameState) :
    RootInv (playersGet gameState.players gameState.currentPlayerIndex).id
      (.node (prepareNodeForExpansion (mkNode gameState none)) []) := by
  refine ⟨?_, ?_, ?_⟩
  · rw [prepareNodeForExpansion_playerToMove]
    rfl
  · intro mv hmv
    have := prepareNodeForExpansion_untried (mkNode gameState none) mv hmv
    exact this
  · intro c hc
    simp at hc

/-- Claim C9: every move the search core can produce is a `'move'` action —
`MCTSEngine.search` and `MCTSBot.getBestMove` never return a `'cut'` action,
whatever the configuration, state, random stream or time budget. -/
theorem search_and_getBestMove_never_return_cut (cfg : MCTSConfig)
    (gameState : GameState) (player : Player) (rand : Nat → Rat)
    (timeFuel : Nat) :
    (∀ m, search cfg gameState player rand timeFuel = .ok m →
      m.type = .move) ∧
    (∀ m, getBestMove cfg gameState player rand timeFuel = .ok m →
      m.type = .move) := by
  have hloop : RootInv
      (playersGet gameState.players gameState.currentPlayerIndex).id
      (searchLoop cfg rand (min cfg.maxSimulations timeFuel)
        (.node (prepareNodeForExpansion (mkNode gameState none)) [], 0)).1 :=
    rootInv_searchLoop cfg rand _ _ (rootInv_root gameState)
  have hsearch : ∀ m, search cfg gameState player rand timeFuel = .ok m →
      m.type = .move := by
    intro m hm
    unfold search at hm
    obtain ⟨c, hc, hcm⟩ := selectFinalMove_child hm
    exact (RootInv.children_prop hloop c hc m hcm).1
  refine ⟨hsearch, ?_⟩
  intro m hm
  unfold getBestMove at hm
  cases hs : search cfg gameState player rand timeFuel with
  | ok m' =>
    simp only [hs, Except.ok.injEq] at hm
    exact hm ▸ hsearch m' hs
  | error e =>
    simp only [hs] at hm
    unfold getEmergencyMove at hm
    cases hmv : (getValidMoves gameState player).moves with
    | nil =>
      simp only [hmv] at hm
      exact absurd hm (by simp)
    | cons destination rest =>
      simp only [hmv, Except.ok.injEq] at hm
      rw [← hm]

/-- Claim C10: `MCTSEngine.search` ignores its `player` argument — the result
is identical for every perspective passed in, and the returned move always
belongs to the root player-to-move, `state.players[state.currentPlayerIndex]`. -/
theorem search_is_player_independent (cfg : MCTSConfig)
    (gameState : GameState) (p p' : Player) (rand : Nat → Rat)
    (timeFuel : Nat) :
    search cfg gameState p rand timeFuel =
      search cfg gameState p' rand timeFuel ∧
    (∀ m, search cfg gameState p rand timeFuel = .ok m →
      m.player =
        (playersGet gameState.players gameState.currentPlayerIndex).id) := by
  refine ⟨rfl, ?_⟩
  intro m hm
  have hloop : RootInv
      (playersGet gameState.players gameState.currentPlayerIndex).id
      (searchLoop cfg rand (min cfg.maxSimulations timeFuel)
        (.node (prepareNodeForExpansion (mkNode gameState none)) [], 0)).1 :=
    rootInv_searchLoop cfg rand _ _ (rootInv_root gameState)
  unfold search at hm
  obtain ⟨c, hc, hcm⟩ := selectFinalMove_child hm
  exact (RootInv.children_prop hloop c hc m hcm).2

/-- Concrete radius-1 game used to exercise the search end to end: the
players start on the adjacent vertices `(0,0)` and `(1,0)`. -/
def witState : GameState :=
  createGame "witness" ⟨"p1", "P1", "red"⟩ ⟨"p2", "P2", "blue"⟩
    ⟨1, some (⟨0, 0⟩, ⟨1, 0⟩)⟩

/-- Engine configuration for the end-to-end runs: a single simulation with
rollout depth 0, otherwise as `probeConfig`. -/
noncomputable def witConfig : MCTSConfig :=
  { probeConfig with maxSimulationDepth := 0 }

/-- The move the search returns on `witState` under `witConfig` with the
all-zeros random stream. -/
def witMove : Move := ⟨.move, "p1", some ⟨0, 0⟩, some ⟨1, -1⟩, none, 0⟩

/-- Witness for the C9 theorem: on the concrete radius-1 game the search
returns the step from `(0,0)` to `(1,-1)`, `getBestMove` forwards it, and it
is a `'move'` action. -/
theorem search_and_getBestMove_never_return_cut_witness :
    search witConfig witState (playersGet witState.players 0) zeroRand 1 =
      Except.ok witMove ∧
    getBestMove witConfig witState (playersGet witState.players 0) zeroRand 1 =
      Except.ok witMove ∧
    Move.type witMove = MoveType.move := by
  have h : search witConfig witState (playersGet witState.players 0) zeroRand 1
      = Except.ok witMove := by decide
  have hb : getBestMove witConfig witState (playersGet witState.players 0)
      zeroRand 1 = Except.ok witMove := by
    unfold getBestMove
    rw [h]
  exact ⟨h, hb, (search_and_getBestMove_never_return_cut witConfig witState
    (playersGet witState.players 0) zeroRand 1).2 witMove hb⟩

/-- Witness for the C10 theorem: on the concrete game the search result is
the same whether the caller passes player 0 or player 1 as the perspective,
and the returned move is played by the root mover `"p1"`. -/
theorem search_is_player_independent_witness :
    search witConfig witState (playersGet witState.players 0) zeroRand 1 =
      search witConfig witState (playersGet witState.players 1) zeroRand 1 ∧
    Move.player witMove =
      (playersGet witState.players witState.currentPlayerIndex).id := by
  have h : search witConfig witState (playersGet witState.players 0) zeroRand 1
      = Except.ok witMove := by decide
  exact ⟨(search_is_player_independent witConfig witState
      (playersGet witState.players 0) (playersGet witState.players 1)
      zeroRand 1).1,
    (search_is_player_independent witConfig witState
      (playersGet witState.players 0) (playersGet witState.players 1)
      zeroRand 1).2 witMove h⟩

end HexPathGame
